import Mathlib

/-!
The node whackamole_learning_node: the control loop and its event handlers

A shallow embedding of `src/whackamole_learning_node.cpp`.

* The file-level statics (`gameStarted`, `autonomousMode`, `newState`,
  `newActionAllowed`, `treeInitialized`, `moleStates[7]`, `armPos`, `robotPos`)
  become the fields of `State`; every callback is a function on `State`.
* `int` values are modelled as `Int`.  The arithmetic of the node is
  `moleWhacked - 2*robotPos`, `data - 1`, `action + 1` and `action - 2`.  The
  first one depends on the static `robotPos` and is computed with 32-bit
  wrap-around (`wrapInt32`); the others take a 16-bit payload or an action id
  between 0 and 5 and cannot leave the 32-bit range.  With 16-bit payloads no
  computation wraps in a reachable state (`reachable_fits_int32` below).
* `double` values are modelled by the rational number they denote (a finite
  double is a dyadic rational, and the conversion of a 32-bit `int` to `double`
  is exact).  `(int) d` truncates towards zero.
* `GDecisionTree` comes from the GClasses library, which is not part of the
  repository: the classifier is a parameter, given by its `predict` function.
* A write through `moleStates[i]` with `i ≥ 7` is undefined behaviour; the
  model of `stateCallback` returns `none` there.
* The two publishers are modelled by the list of messages a tick publishes.
* `selectAction` and the loop body are written once, with the call to
  `predict` as an effect of a monad (`selectActionM`, `mainTickM`); `selectAction`
  and `mainTick` are their instances for a classifier without effects, and
  `recordedPredict` is the instance that records the calls.
-/

namespace WhackamoleLearning

/-! ## State -/

/-- The file-level statics of the node. -/
@[ext]
structure State where
  /-- Flag indicating whether a game has started. -/
  gameStarted : Bool
  /-- Flag indicating whether or not autonomous execution mode is enabled. -/
  autonomousMode : Bool
  /-- Flag indicating whether or not a new mole state has been received. -/
  newState : Bool
  /-- Flag indicating whether a new action can now be taken. -/
  newActionAllowed : Bool
  /-- Flag indicating whether the decision tree has been initialized. -/
  treeInitialized : Bool
  /-- Array of most recent mole state values, `int moleStates[7]`. -/
  moleStates : Fin 7 → Int
  /-- Arm position value. -/
  armPos : Int
  /-- Robot base position value. -/
  robotPos : Int
  deriving DecidableEq

/-- The classifier, `GClasses::GDecisionTree`, seen through
`predict(states, action)`: it reads the array `states` and writes one double
to `action[0]`. -/
structure GDecisionTree where
  predict : List ℚ → ℚ

/-- A message handed to one of the two publishers of `main`. -/
inductive Publish where
  /-- Published with `armPosPub.publish`, topic `whackamole/cmd_arm_pos`. -/
  | armPosPub (data : Int)
  /-- Published with `robotPosPub.publish`, topic `whackamole/cmd_robot_pos`. -/
  | robotPosPub (data : Int)
  deriving DecidableEq, Repr

/-- The `data` field of a published message. -/
def Publish.data : Publish → Int
  | .armPosPub d => d
  | .robotPosPub d => d

/-! ## Start-up -/

/-- The statics as `main` sets them before the tree is built ("Set initial
flag values"); `moleStates` has static storage and is zero-initialised. -/
def mainInit : State where
  gameStarted := false
  autonomousMode := false
  newState := false
  newActionAllowed := true
  treeInitialized := false
  moleStates := fun _ => 0
  armPos := 1
  robotPos := 1

/-- The function `initializeTree`: `treeInitialized = 1` is reached exactly when
`createDecisionTree` returns without throwing (`created`); the exception
handler leaves the flag alone. -/
def initializeTree (created : Bool) (s : State) : State :=
  if created then { s with treeInitialized := true } else s

/-- The state in which `main` enters its `while` loop. -/
def initialState (created : Bool) : State :=
  initializeTree created mainInit

/-! ## Callbacks -/

/-- The value an `int` holds after a computation whose exact result is `x`:
32-bit two's complement wrap-around. -/
def wrapInt32 (x : Int) : Int :=
  (x + 2147483648) % 4294967296 - 2147483648

/-- The function `whackCallback`.  Both `2*robotPos` and the subtraction are
computed in `int`. -/
def whackCallback (s : State) (data : Int) : State :=
  let moleWhacked := data
  { s with
    armPos := wrapInt32 (moleWhacked - wrapInt32 (2 * s.robotPos))
    newActionAllowed := true }

/-- The function `robotArriveCallback`. -/
def robotArriveCallback (s : State) (data : Int) : State :=
  { s with robotPos := data - 1, newActionAllowed := true }

/-- The `for` loop of `stateCallback`: `moleStates[i] = *iter; i++` for every
element of the message.  The array has 7 elements; a write at `i ≥ 7` is
outside it and yields `none`. -/
def stateCallbackLoop : List Int → Nat → (Fin 7 → Int) → Option (Fin 7 → Int)
  | [], _, moles => some moles
  | x :: rest, i, moles =>
    if h : i < 7 then stateCallbackLoop rest (i + 1) (Function.update moles ⟨i, h⟩ x)
    else none

/-- The function `stateCallback`. -/
def stateCallback (s : State) (data : List Int) : Option State :=
  match stateCallbackLoop data 0 s.moleStates with
  | some moles => some { s with moleStates := moles, newState := true }
  | none => none

/-- The function `autoModeCallback`: the 16-bit payload is converted to `bool`. -/
def autoModeCallback (s : State) (data : Int) : State :=
  { s with autonomousMode := decide (data ≠ 0) }

/-- The function `gameStartedCallback`. -/
def gameStartedCallback (s : State) : State :=
  { s with gameStarted := true }

/-- The function `timeLeftCallback`. -/
def timeLeftCallback (s : State) (data : Int) : State :=
  let timeLeft := data
  if timeLeft ≤ 0 then
    { s with
      gameStarted := false
      autonomousMode := false
      newState := false
      newActionAllowed := true
      robotPos := 1
      armPos := 1 }
  else s

/-! ## Action selection and the loop body -/

/-- The conversion `(int) d` of a double: truncation towards zero. -/
def truncToInt (d : ℚ) : Int :=
  Int.tdiv d.num (d.den : Int)

/-- The function `selectAction`: `moles` is its array argument, the robot and
arm positions are read from the statics.  The call
`dtree.predict(states, action)` is an effect of the monad `m`: `predict`
receives the array `states` and returns the double written to `action[0]`. -/
def selectActionM {m : Type → Type} [Monad m] (predict : List ℚ → m ℚ) (s : State)
    (moles : Fin 7 → Int) : m Int := do
  let states : List ℚ :=
    [(moles 0 : ℚ), (moles 1 : ℚ), (moles 2 : ℚ), (moles 3 : ℚ), (moles 4 : ℚ),
     (moles 5 : ℚ), (moles 6 : ℚ), (s.robotPos : ℚ), (s.armPos : ℚ)]
  let action ← predict states
  let chosenAction := truncToInt action
  pure chosenAction

/-- The body of the `while` loop of `main` up to `ros::spinOnce()`, with the
call to the classifier as an effect of the monad `m`: the new statics and the
messages published. -/
def mainTickM {m : Type → Type} [Monad m] (predict : List ℚ → m ℚ) (s : State) :
    m (State × List Publish) :=
  if s.autonomousMode && s.treeInitialized && s.newState && s.newActionAllowed
      && s.gameStarted then do
    let action ← selectActionM predict s s.moleStates
    let published : List Publish :=
      if action ≥ 0 ∧ action < 3 then [Publish.armPosPub (action + 1)]
      else if action ≥ 3 ∧ action < 6 then [Publish.robotPosPub (action - 2)]
      else []
    pure ({ s with newActionAllowed := false, newState := false }, published)
  else pure (s, [])

/-- The function `selectAction` for a classifier without effects. -/
def selectAction (s : State) (moles : Fin 7 → Int) (dtree : GDecisionTree) : Int :=
  Id.run (selectActionM (fun states => pure (dtree.predict states)) s moles)

/-- The loop body for a classifier without effects. -/
def mainTick (dtree : GDecisionTree) (s : State) : State × List Publish :=
  Id.run (mainTickM (fun states => pure (dtree.predict states)) s)

/-- The classifier `dtree` with a record of its calls: every call of `predict`
appends its argument array to the record. -/
def recordedPredict (dtree : GDecisionTree) (states : List ℚ) :
    StateM (List (List ℚ)) ℚ := do
  modify fun calls => calls ++ [states]
  pure (dtree.predict states)

/-! ## Events and traces -/

/-- The six inbound messages, one per subscription of `main`. -/
inductive Event where
  /-- Topic `whackamole/whack_complete`. -/
  | whackComplete (slot : Int)
  /-- Topic `whackamole/robot_position_arrive`. -/
  | robotArrived (pos : Int)
  /-- Topic `whackamole/state_data`. -/
  | stateUpdate (moles : List Int)
  /-- Topic `whackamole/autonomous_mode`. -/
  | autonomousModeSet (flag : Int)
  /-- Topic `whackamole/game_started`. -/
  | gameStarted
  /-- Topic `whackamole/time_left`. -/
  | timeLeft (seconds : Int)
  deriving DecidableEq, Repr

/-- Delivery of one message by `ros::spinOnce()` to its callback. -/
def applyEvent (s : State) : Event → Option State
  | .whackComplete slot => some (whackCallback s slot)
  | .robotArrived pos => some (robotArriveCallback s pos)
  | .stateUpdate moles => stateCallback s moles
  | .autonomousModeSet flag => some (autoModeCallback s flag)
  | .gameStarted => some (gameStartedCallback s)
  | .timeLeft seconds => some (timeLeftCallback s seconds)

/-- One thing that happens to the node: a pass through the loop body, or the
delivery of one message. -/
inductive Step where
  | tick
  | event (e : Event)
  deriving DecidableEq, Repr

/-- One step: the new statics and the messages published by it. -/
def step (dtree : GDecisionTree) (s : State) : Step → Option (State × List Publish)
  | .tick => some (mainTick dtree s)
  | .event e =>
    match applyEvent s e with
    | some s' => some (s', [])
    | none => none

/-- A sequence of steps: the final statics and everything published, in order. -/
def run (dtree : GDecisionTree) : State → List Step → Option (State × List Publish)
  | s, [] => some (s, [])
  | s, st :: rest =>
    match step dtree s st with
    | none => none
    | some (s1, out1) =>
      match run dtree s1 rest with
      | none => none
      | some (s2, out2) => some (s2, out1 ++ out2)

/-- The condition under which the loop body acts, as a proposition. -/
def GateOpen (s : State) : Prop :=
  s.autonomousMode = true ∧ s.treeInitialized = true ∧ s.gameStarted = true ∧
    s.newState = true ∧ s.newActionAllowed = true

instance (s : State) : Decidable (GateOpen s) := by
  unfold GateOpen; infer_instance

/-- The message carries no more values than `moleStates` has elements. -/
def Step.inBounds : Step → Bool
  | .event (.stateUpdate moles) => decide (moles.length ≤ 7)
  | _ => true

/-- The acknowledgments and the session reset: `WhackComplete`, `RobotArrived`
and `TimeLeft` with `seconds ≤ 0`. -/
def Step.reopens : Step → Bool
  | .event (.whackComplete _) => true
  | .event (.robotArrived _) => true
  | .event (.timeLeft seconds) => decide (seconds ≤ 0)
  | _ => false

/-- The step is the delivery of `GameStarted`. -/
def Step.isGameStarted : Step → Bool
  | .event .gameStarted => true
  | _ => false

/-- A classifier that answers `d` whatever the features. -/
def constTree (d : ℚ) : GDecisionTree where
  predict := fun _ => d

/-- A state in which the loop body acts: game started, autonomous mode on,
tree built, a fresh mole state and no action under way. -/
def readyState : State where
  gameStarted := true
  autonomousMode := true
  newState := true
  newActionAllowed := true
  treeInitialized := true
  moleStates := fun _ => 0
  armPos := 1
  robotPos := 1

/-- The number of published commands not yet acknowledged after a trace that
starts with `n` of them: every published message adds one, and `WhackComplete`,
`RobotArrived` and `TimeLeft` with `seconds ≤ 0` reset the count to zero. -/
def runUnacked (dtree : GDecisionTree) : State → Nat → List Step → Option (State × Nat)
  | s, n, [] => some (s, n)
  | s, n, st :: rest =>
    match step dtree s st with
    | none => none
    | some (s1, out) =>
      runUnacked dtree s1 (if st.reopens then 0 else n + out.length) rest

/-- A 16-bit message payload. -/
def fitsInt16 (x : Int) : Prop := -32768 ≤ x ∧ x ≤ 32767

/-- A value of type `int`. -/
def fitsInt32 (x : Int) : Prop := -2147483648 ≤ x ∧ x ≤ 2147483647

/-- The integer payloads of `std_msgs::Int16` messages are 16-bit. -/
def Event.payloadFits : Event → Prop
  | .whackComplete slot => fitsInt16 slot
  | .robotArrived pos => fitsInt16 pos
  | .autonomousModeSet flag => fitsInt16 flag
  | .timeLeft seconds => fitsInt16 seconds
  | _ => True

/-- Payload condition of a step. -/
def Step.payloadFits : Step → Prop
  | .tick => True
  | .event e => e.payloadFits

/-- The positions stay in a range in which `moleWhacked - 2*robotPos` and
`data - 1` do not leave the 32-bit `int`. -/
def PosBounded (s : State) : Prop :=
  -32769 ≤ s.robotPos ∧ s.robotPos ≤ 32766 ∧ -98300 ≤ s.armPos ∧ s.armPos ≤ 98305

/-- The array `moleStates` as a list, element 0 first. -/
def State.molesList (s : State) : List Int :=
  [s.moleStates 0, s.moleStates 1, s.moleStates 2, s.moleStates 3, s.moleStates 4,
   s.moleStates 5, s.moleStates 6]

/-- The classifier only answers action ids in `[0,6)`. -/
def InRange (dtree : GDecisionTree) : Prop :=
  ∀ s : State, 0 ≤ selectAction s s.moleStates dtree ∧ selectAction s s.moleStates dtree < 6

/-- The relation between `newActionAllowed` and the number `n` of
unacknowledged commands that every step keeps. -/
def UnackedInv (dtree : GDecisionTree) (s : State) (n : Nat) : Prop :=
  (s.newActionAllowed = true → n = 0) ∧
    (s.newActionAllowed = false → n ≤ 1 ∧ (InRange dtree → n = 1))

/-- A trace with one dispatch: `GameStarted`, `AutonomousModeSet(1)`, a
`StateUpdate` of 7 values, a tick, a further `StateUpdate` and a further tick. -/
def dispatchTrace : List Step :=
  [Step.event Event.gameStarted, Step.event (Event.autonomousModeSet 1),
   Step.event (Event.stateUpdate [0, 0, 1, 0, 0, 0, 0]), Step.tick,
   Step.event (Event.stateUpdate [0, 1, 1, 0, 0, 0, 0]), Step.tick]

/-- The acknowledgments: `WhackComplete` and `RobotArrived`. -/
def Event.isAck : Event → Bool
  | .whackComplete _ => true
  | .robotArrived _ => true
  | _ => false

/-- The feature vector as the specification words it: the seven mole states
in order, then the robot position, then the arm position, as doubles. -/
def featureVector (s : State) : List ℚ :=
  (s.molesList ++ [s.robotPos, s.armPos]).map fun x : Int => (x : ℚ)

/-- The step is the delivery of `AutonomousModeSet` with a nonzero flag. -/
def Step.isAutoOn : Step → Bool
  | .event (.autonomousModeSet flag) => decide (flag ≠ 0)
  | _ => false

/-- The step is the delivery of a `StateUpdate`. -/
def Step.isStateUpdate : Step → Bool
  | .event (.stateUpdate _) => true
  | _ => false

/-- Both positions are ordinals: 0 (left), 1 (mid) or 2 (right). -/
def PosValid (s : State) : Prop :=
  (s.robotPos = 0 ∨ s.robotPos = 1 ∨ s.robotPos = 2) ∧
    (s.armPos = 0 ∨ s.armPos = 1 ∨ s.armPos = 2)

instance (s : State) : Decidable (PosValid s) := by
  unfold PosValid; infer_instance

/-- The payload condition on the acknowledgments in state `s`: `RobotArrived`
carries a position in `{1,2,3}`, `WhackComplete` a slot between `2*robotPos`
and `2*robotPos + 2` for the `robotPos` of `s`. -/
def Step.ackInRange (s : State) : Step → Bool
  | .event (.robotArrived pos) => decide (pos = 1 ∨ pos = 2 ∨ pos = 3)
  | .event (.whackComplete slot) =>
    decide (2 * s.robotPos ≤ slot ∧ slot ≤ 2 * s.robotPos + 2)
  | _ => true

/-- Every acknowledgment of the trace meets `ackInRange` in the state in which
it is applied. -/
def acksInRange (dtree : GDecisionTree) : State → List Step → Bool
  | _, [] => true
  | s, st :: rest =>
    st.ackInRange s &&
      match step dtree s st with
      | none => true
      | some (s1, _) => acksInRange dtree s1 rest

/-- A classifier that reads the feature at index 7 and answers it plus 7/2. -/
def robotPlusHalf : GDecisionTree where
  predict := fun f => f.getD 7 0 + 7 / 2

/-- The three flags that no tick changes are set: autonomous mode on, tree
built, game started. -/
def Armed (s : State) : Prop :=
  s.autonomousMode = true ∧ s.treeInitialized = true ∧ s.gameStarted = true

/-- The start of a game under autonomous control: `GameStarted`,
`AutonomousModeSet(1)` and a `StateUpdate` with the mole vector `m`. -/
def setupTrace (m : List Int) : List Step :=
  [Step.event Event.gameStarted, Step.event (Event.autonomousModeSet 1),
   Step.event (Event.stateUpdate m)]

/-! ## The loop body -/

/-- The condition of the `if` in the loop body is the gate condition. -/
theorem gate_cond_iff (s : State) :
    (s.autonomousMode && s.treeInitialized && s.newState && s.newActionAllowed
      && s.gameStarted) = true ↔ GateOpen s := by
  simp only [GateOpen, Bool.and_eq_true]
  tauto

/-- The loop body when the gate condition holds. -/
theorem mainTick_of_open (dtree : GDecisionTree) (s : State) (h : GateOpen s) :
    mainTick dtree s =
      ({ s with newActionAllowed := false, newState := false },
        if selectAction s s.moleStates dtree ≥ 0 ∧ selectAction s s.moleStates dtree < 3 then
          [Publish.armPosPub (selectAction s s.moleStates dtree + 1)]
        else if selectAction s s.moleStates dtree ≥ 3 ∧
            selectAction s s.moleStates dtree < 6 then
          [Publish.robotPosPub (selectAction s s.moleStates dtree - 2)]
        else []) := by
  unfold mainTick mainTickM
  rw [if_pos ((gate_cond_iff s).2 h)]
  rfl

/-- The loop body when the gate condition fails: nothing happens. -/
theorem mainTick_of_not_open (dtree : GDecisionTree) (s : State) (h : ¬ GateOpen s) :
    mainTick dtree s = (s, []) := by
  unfold mainTick mainTickM
  rw [if_neg (fun hc => h ((gate_cond_iff s).1 hc))]
  rfl

/-- An out-of-range action id with the gate condition true: nothing is
published and `newActionAllowed` is cleared all the same. -/
theorem mainTick_out_of_range (dtree : GDecisionTree) (s : State) (h : GateOpen s)
    (ha : ¬ (0 ≤ selectAction s s.moleStates dtree ∧ selectAction s s.moleStates dtree < 6)) :
    (mainTick dtree s).2 = [] ∧ (mainTick dtree s).1.newActionAllowed = false ∧
      (mainTick dtree s).1.newState = false := by
  rw [mainTick_of_open dtree s h]
  refine ⟨?_, rfl, rfl⟩
  simp only
  split_ifs with h1 h2
  · exact absurd ⟨h1.1, by omega⟩ ha
  · exact absurd ⟨by omega, h2.2⟩ ha
  · rfl

/-- A tick publishes at most one message. -/
theorem mainTick_length_le_one (dtree : GDecisionTree) (s : State) :
    (mainTick dtree s).2.length ≤ 1 := by
  by_cases h : GateOpen s
  · rw [mainTick_of_open dtree s h]
    simp only
    split_ifs <;> simp
  · rw [mainTick_of_not_open dtree s h]
    simp

/-- A tick never sets `newActionAllowed`: it stays false if it was false. -/
theorem mainTick_closed (dtree : GDecisionTree) (s : State) (h : s.newActionAllowed = false) :
    mainTick dtree s = (s, []) := by
  apply mainTick_of_not_open
  intro hg
  rw [hg.2.2.2.2] at h
  exact Bool.noConfusion h

/-- A tick that publishes found the gate condition true. -/
theorem gate_of_published (dtree : GDecisionTree) (s : State)
    (hp : (mainTick dtree s).2 ≠ []) : GateOpen s := by
  by_contra h
  rw [mainTick_of_not_open dtree s h] at hp
  exact hp rfl

/-- C1 (as amended): one pass through the loop body publishes a command if and
only if `autonomousMode`, `treeInitialized`, `gameStarted`, `newState` and
`newActionAllowed` are all true at its start and the action id that
`selectAction` returns lies in `[0,6)`. -/
theorem tick_publishes_iff (dtree : GDecisionTree) (s : State) :
    (mainTick dtree s).2 ≠ [] ↔
      (GateOpen s ∧ 0 ≤ selectAction s s.moleStates dtree ∧
        selectAction s s.moleStates dtree < 6) := by
  constructor
  · intro hp
    by_cases h : GateOpen s
    · refine ⟨h, ?_⟩
      by_contra ha
      exact hp (mainTick_out_of_range dtree s h ha).1
    · rw [mainTick_of_not_open dtree s h] at hp
      exact absurd rfl hp
  · rintro ⟨h, h0, h6⟩
    rw [mainTick_of_open dtree s h]
    simp only
    split_ifs with h1 h2
    · simp
    · simp
    · exfalso
      omega

/-- C1 (as stated) fails: in `readyState` all five flags are true, the
classifier answers 6, and the loop body publishes nothing; so "publishes if
and only if the five flags are true" does not hold for every classifier. -/
theorem tick_publishes_iff_gate_refuted :
    GateOpen readyState ∧ (mainTick (constTree 6) readyState).2 = [] ∧
      ¬ (∀ (dtree : GDecisionTree) (s : State), (mainTick dtree s).2 ≠ [] ↔ GateOpen s) := by
  refine ⟨by decide, by decide, ?_⟩
  intro h
  exact (h (constTree 6) readyState).2 (by decide) (by decide)

/-- C3 (as stated) fails: in `readyState` the gate condition holds and the
classifier answers 6, an id outside `[0,6)`; the loop body publishes nothing,
and afterwards `newActionAllowed` is false, so the gate is not reopened.  The
same happens for the negative id -1. -/
theorem out_of_range_action_closes_gate :
    GateOpen readyState ∧
      selectAction readyState readyState.moleStates (constTree 6) = 6 ∧
      (mainTick (constTree 6) readyState).2 = [] ∧
      (mainTick (constTree 6) readyState).1.newActionAllowed = false ∧
      selectAction readyState readyState.moleStates (constTree (-1)) = -1 ∧
      (mainTick (constTree (-1)) readyState).2 = [] ∧
      (mainTick (constTree (-1)) readyState).1.newActionAllowed = false := by
  decide

/-- C3 (as amended): in a tick in which the gate condition holds and
`selectAction` returns an id outside `[0,6)`, nothing is published on either
channel and the gate is closed as after every other tick in which the gate
condition holds: afterwards `newActionAllowed` and `newState` are false, and
the other statics are unchanged. -/
theorem out_of_range_action_effect (dtree : GDecisionTree) (s : State) (hg : GateOpen s)
    (ha : ¬ (0 ≤ selectAction s s.moleStates dtree ∧ selectAction s s.moleStates dtree < 6)) :
    (mainTick dtree s).2 = [] ∧
      (mainTick dtree s).1 = { s with newActionAllowed := false, newState := false } := by
  refine ⟨(mainTick_out_of_range dtree s hg ha).1, ?_⟩
  rw [mainTick_of_open dtree s hg]

/-- C3 (as amended) at the id 7 in `readyState`. -/
theorem out_of_range_action_effect_witness :
    GateOpen readyState ∧
      ¬ (0 ≤ selectAction readyState readyState.moleStates (constTree 7) ∧
        selectAction readyState readyState.moleStates (constTree 7) < 6) ∧
      (mainTick (constTree 7) readyState).2 = [] ∧
      (mainTick (constTree 7) readyState).1 =
        { readyState with newActionAllowed := false, newState := false } :=
  ⟨by decide, by decide,
   out_of_range_action_effect (constTree 7) readyState (by decide) (by decide)⟩

/-- C4: when the gate condition holds and `selectAction` returns `a`, then for
`0 ≤ a ≤ 2` the tick publishes exactly the one message `a + 1` on the arm
channel (and nothing on the robot channel), for `3 ≤ a ≤ 5` exactly the one
message `a - 2` on the robot channel (and nothing on the arm channel); every
message a tick publishes carries 1, 2 or 3. -/
theorem dispatch_mapping (dtree : GDecisionTree) (s : State) (hg : GateOpen s) :
    (0 ≤ selectAction s s.moleStates dtree ∧ selectAction s s.moleStates dtree ≤ 2 →
      (mainTick dtree s).2 = [Publish.armPosPub (selectAction s s.moleStates dtree + 1)]) ∧
    (3 ≤ selectAction s s.moleStates dtree ∧ selectAction s s.moleStates dtree ≤ 5 →
      (mainTick dtree s).2 = [Publish.robotPosPub (selectAction s s.moleStates dtree - 2)]) ∧
    (∀ p ∈ (mainTick dtree s).2, p.data = 1 ∨ p.data = 2 ∨ p.data = 3) := by
  rw [mainTick_of_open dtree s hg]
  simp only
  refine ⟨?_, ?_, ?_⟩
  · rintro ⟨h0, h2⟩
    rw [if_pos ⟨h0, by omega⟩]
  · rintro ⟨h3, h5⟩
    rw [if_neg (by omega), if_pos ⟨h3, by omega⟩]
  · intro p hp
    split_ifs at hp with h1 h2
    · rw [List.mem_singleton] at hp
      subst hp
      simp only [Publish.data]
      omega
    · rw [List.mem_singleton] at hp
      subst hp
      simp only [Publish.data]
      omega
    · simp at hp

/-- C4 at the ids 1 and 4: id 1 gives the arm command 2, id 4 the robot
command 2. -/
theorem dispatch_mapping_witness :
    GateOpen readyState ∧
      (mainTick (constTree 1) readyState).2 = [Publish.armPosPub 2] ∧
      (mainTick (constTree 4) readyState).2 = [Publish.robotPosPub 2] :=
  ⟨by decide,
   (dispatch_mapping (constTree 1) readyState (by decide)).1 (by decide),
   (dispatch_mapping (constTree 4) readyState (by decide)).2.1 (by decide)⟩

/-! ## The callbacks -/

/-- C5: `TimeLeft` with `seconds ≤ 0`, from any state, clears `gameStarted`,
`autonomousMode` and `newState`, sets `newActionAllowed` (no action in flight)
and puts `robotPos` and `armPos` at 1 (Mid). -/
theorem timeLeft_resets (s : State) (seconds : Int) (h : seconds ≤ 0) :
    (timeLeftCallback s seconds).gameStarted = false ∧
      (timeLeftCallback s seconds).autonomousMode = false ∧
      (timeLeftCallback s seconds).newState = false ∧
      (timeLeftCallback s seconds).newActionAllowed = true ∧
      (timeLeftCallback s seconds).robotPos = 1 ∧
      (timeLeftCallback s seconds).armPos = 1 := by
  simp [timeLeftCallback, h]

/-- C5 at a state with an action pending and the positions away from Mid,
for `TimeLeft(0)`. -/
theorem timeLeft_resets_witness :
    (0 : Int) ≤ 0 ∧
      (timeLeftCallback (mainTick (constTree 1)
        { readyState with robotPos := 2, armPos := 0 }).1 0).gameStarted = false ∧
      (timeLeftCallback (mainTick (constTree 1)
        { readyState with robotPos := 2, armPos := 0 }).1 0).newActionAllowed = true ∧
      (timeLeftCallback (mainTick (constTree 1)
        { readyState with robotPos := 2, armPos := 0 }).1 0).robotPos = 1 ∧
      (timeLeftCallback (mainTick (constTree 1)
        { readyState with robotPos := 2, armPos := 0 }).1 0).armPos = 1 :=
  have h := timeLeft_resets (mainTick (constTree 1)
    { readyState with robotPos := 2, armPos := 0 }).1 0 (by decide)
  ⟨by decide, h.1, h.2.2.2.1, h.2.2.2.2.1, h.2.2.2.2.2⟩

/-- A value inside the 32-bit range is not changed by the wrap-around. -/
theorem wrapInt32_of_fits (x : Int) (h : fitsInt32 x) : wrapInt32 x = x := by
  unfold fitsInt32 at h
  unfold wrapInt32
  omega

/-- The wrap-around lands inside the 32-bit range and differs from the exact
value by a multiple of `2^32`. -/
theorem wrapInt32_spec (x : Int) :
    fitsInt32 (wrapInt32 x) ∧ ∃ k : Int, wrapInt32 x = x + 4294967296 * k := by
  refine ⟨?_, -((x + 2147483648) / 4294967296), ?_⟩
  · unfold fitsInt32 wrapInt32
    omega
  · unfold wrapInt32
    omega

/-- C6 (as stated) fails: with `robotPos = 2000000000`, `WhackComplete(0)`
leaves `armPos = 294967296`, not `0 - 2*2000000000 = -4000000000`, which no
`int` can hold. -/
theorem whackComplete_wraps :
    (whackCallback { readyState with robotPos := 2000000000 } 0).armPos = 294967296 ∧
      (whackCallback { readyState with robotPos := 2000000000 } 0).armPos ≠
        0 - 2 * ({ readyState with robotPos := 2000000000 } : State).robotPos := by
  decide

/-- C6 (as amended): `WhackComplete(slot)` sets `armPos` to `slot - 2*robotPos`
computed in 32-bit `int` arithmetic with the `robotPos` held before the event;
this is the exact value `slot - 2*robotPos` whenever `2*robotPos` and
`slot - 2*robotPos` fit the 32-bit range, in particular for a 16-bit slot in a
state whose positions are in the range that 16-bit payloads can produce.  The
event sets `newActionAllowed` and leaves `robotPos`, `moleStates`, `newState`,
`gameStarted`, `autonomousMode` (and `treeInitialized`) as they were. -/
theorem whackComplete_effect (s : State) (slot : Int) :
    (whackCallback s slot).armPos = wrapInt32 (slot - wrapInt32 (2 * s.robotPos)) ∧
      (fitsInt32 (2 * s.robotPos) → fitsInt32 (slot - 2 * s.robotPos) →
        (whackCallback s slot).armPos = slot - 2 * s.robotPos) ∧
      (PosBounded s → fitsInt16 slot →
        (whackCallback s slot).armPos = slot - 2 * s.robotPos) ∧
      (whackCallback s slot).newActionAllowed = true ∧
      (whackCallback s slot).robotPos = s.robotPos ∧
      (whackCallback s slot).moleStates = s.moleStates ∧
      (whackCallback s slot).newState = s.newState ∧
      (whackCallback s slot).gameStarted = s.gameStarted ∧
      (whackCallback s slot).autonomousMode = s.autonomousMode ∧
      (whackCallback s slot).treeInitialized = s.treeInitialized := by
  have hexact : fitsInt32 (2 * s.robotPos) → fitsInt32 (slot - 2 * s.robotPos) →
      (whackCallback s slot).armPos = slot - 2 * s.robotPos := by
    intro h1 h2
    show wrapInt32 (slot - wrapInt32 (2 * s.robotPos)) = slot - 2 * s.robotPos
    rw [wrapInt32_of_fits _ h1, wrapInt32_of_fits _ h2]
  refine ⟨rfl, hexact, ?_, rfl, rfl, rfl, rfl, rfl, rfl, rfl⟩
  intro hs hslot
  apply hexact
  · unfold PosBounded at hs
    unfold fitsInt32
    omega
  · unfold PosBounded at hs
    unfold fitsInt16 at hslot
    unfold fitsInt32
    omega

/-- C6 (as amended) for slot 2 with `robotPos = 1`: `armPos` becomes 0 (left). -/
theorem whackComplete_effect_witness :
    PosBounded readyState ∧ fitsInt16 2 ∧ readyState.robotPos = 1 ∧
      (whackCallback readyState 2).armPos = 2 - 2 * readyState.robotPos ∧
      (whackCallback readyState 2).armPos = 0 :=
  have h := (whackComplete_effect readyState 2).2.2.1
    (by unfold PosBounded; decide) (by unfold fitsInt16; decide)
  ⟨by unfold PosBounded; decide, by unfold fitsInt16; decide, rfl, h, by decide⟩

/-- C7: `RobotArrived(pos)` sets `robotPos` to `pos - 1`, sets
`newActionAllowed`, and leaves `armPos`, `moleStates`, `newState`,
`gameStarted`, `autonomousMode` (and `treeInitialized`) as they were; pos 2
gives `robotPos = 1`. -/
theorem robotArrived_effect (s : State) (pos : Int) :
    (robotArriveCallback s pos).robotPos = pos - 1 ∧
      (robotArriveCallback s pos).newActionAllowed = true ∧
      (robotArriveCallback s pos).armPos = s.armPos ∧
      (robotArriveCallback s pos).moleStates = s.moleStates ∧
      (robotArriveCallback s pos).newState = s.newState ∧
      (robotArriveCallback s pos).gameStarted = s.gameStarted ∧
      (robotArriveCallback s pos).autonomousMode = s.autonomousMode ∧
      (robotArriveCallback s pos).treeInitialized = s.treeInitialized ∧
      (robotArriveCallback s 2).robotPos = 1 :=
  ⟨rfl, rfl, rfl, rfl, rfl, rfl, rfl, rfl, rfl⟩

/-! ## The loop of `stateCallback` -/

/-- A message of at most `7 - i` values, written from index `i` on: the loop
finishes inside the array, element `j ≥ i` receives value `j - i` of the
message if there is one, and every other element keeps its value. -/
theorem stateCallbackLoop_in_bounds :
    ∀ (data : List Int) (i : Nat) (moles : Fin 7 → Int), i + data.length ≤ 7 →
      ∃ m, stateCallbackLoop data i moles = some m ∧
        ∀ j : Fin 7, m j = if j.val < i then moles j else (data[j.val - i]?).getD (moles j) := by
  intro data
  induction data with
  | nil =>
    intro i moles _
    exact ⟨moles, rfl, fun j => by simp⟩
  | cons x rest ih =>
    intro i moles hlen
    have hi : i < 7 := by
      simp only [List.length_cons] at hlen
      omega
    obtain ⟨m, hm, hspec⟩ := ih (i + 1) (Function.update moles ⟨i, hi⟩ x) (by
      simp only [List.length_cons] at hlen
      omega)
    refine ⟨m, ?_, ?_⟩
    · rw [stateCallbackLoop, dif_pos hi]
      exact hm
    · intro j
      rw [hspec j]
      rcases Nat.lt_trichotomy j.val i with hlt | heq | hgt
      · have hne : j ≠ ⟨i, hi⟩ := fun h => by
          have := congrArg Fin.val h
          simp only at this
          omega
        rw [if_pos (by omega), if_pos hlt, Function.update_noteq hne]
      · have hje : j = ⟨i, hi⟩ := Fin.ext heq
        rw [if_pos (by omega), if_neg (by omega), hje, Function.update_same]
        simp
      · have hne : j ≠ ⟨i, hi⟩ := fun h => by
          have := congrArg Fin.val h
          simp only at this
          omega
        rw [if_neg (by omega), if_neg (by omega), Function.update_noteq hne]
        have hsub : j.val - i = (j.val - (i + 1)) + 1 := by omega
        rw [hsub, List.getElem?_cons_succ]

/-- A message with more values than fit from index `i` on: the loop writes
outside the array. -/
theorem stateCallbackLoop_out_of_bounds :
    ∀ (data : List Int) (i : Nat) (moles : Fin 7 → Int), i ≤ 7 → 7 < i + data.length →
      stateCallbackLoop data i moles = none := by
  intro data
  induction data with
  | nil =>
    intro i moles h7 hlen
    simp only [List.length_nil] at hlen
    omega
  | cons x rest ih =>
    intro i moles h7 hlen
    simp only [List.length_cons] at hlen
    by_cases hi : i < 7
    · rw [stateCallbackLoop, dif_pos hi]
      exact ih (i + 1) _ (by omega) (by omega)
    · rw [stateCallbackLoop, dif_neg hi]

/-- The handler `stateCallback` touches `moleStates` and `newState` only. -/
theorem stateCallback_frame (s s' : State) (data : List Int)
    (h : stateCallback s data = some s') :
    s'.newState = true ∧ s'.gameStarted = s.gameStarted ∧
      s'.autonomousMode = s.autonomousMode ∧ s'.newActionAllowed = s.newActionAllowed ∧
      s'.treeInitialized = s.treeInitialized ∧ s'.armPos = s.armPos ∧
      s'.robotPos = s.robotPos := by
  unfold stateCallback at h
  split at h
  · cases h
    exact ⟨rfl, rfl, rfl, rfl, rfl, rfl, rfl⟩
  · cases h

/-- A message of at most 7 values is taken by `stateCallback`: value `j` of
the message lands in element `j`, the elements beyond the message keep their
values. -/
theorem stateCallback_in_bounds (s : State) (data : List Int) (h : data.length ≤ 7) :
    ∃ s', stateCallback s data = some s' ∧
      ∀ j : Fin 7, s'.moleStates j = (data[j.val]?).getD (s.moleStates j) := by
  obtain ⟨m, hm, hspec⟩ := stateCallbackLoop_in_bounds data 0 s.moleStates (by omega)
  refine ⟨{ s with moleStates := m, newState := true }, ?_, ?_⟩
  · unfold stateCallback
    rw [hm]
  · intro j
    have := hspec j
    simpa using this

/-- A message of more than 7 values makes `stateCallback` write outside the
array. -/
theorem stateCallback_out_of_bounds (s : State) (data : List Int) (h : 7 < data.length) :
    stateCallback s data = none := by
  unfold stateCallback
  rw [stateCallbackLoop_out_of_bounds data 0 s.moleStates (by omega) (by omega)]

/-- C8 (as stated) fails: a `StateUpdate` of 2 values is not rejected: after
`[1,2,3,4,5,6,7]` the message `[9,9]` leaves `moleStates = [9,9,3,4,5,6,7]`,
not the prior snapshot, and sets `newState`; and a `StateUpdate` of 8 values
makes the loop of `stateCallback` write `moleStates[7]`, outside the array. -/
theorem stateCallback_malformed_payload :
    ((stateCallback mainInit [1, 2, 3, 4, 5, 6, 7]).bind fun s =>
        (stateCallback { s with newState := false } [9, 9]).map fun s' =>
          (s.molesList, s'.molesList, s'.newState)) =
        some ([1, 2, 3, 4, 5, 6, 7], [9, 9, 3, 4, 5, 6, 7], true) ∧
      stateCallback mainInit [1, 2, 3, 4, 5, 6, 7, 8] = none := by
  decide

/-- C8 (as amended): a `StateUpdate` of fewer than 7 values is taken, not
rejected: the handler finishes without a write outside the array, element `j`
of `moleStates` holds value `j` of the message for every `j` below the length
of the message, the elements from that length on keep their prior values,
`newState` is set, and the other statics are unchanged. -/
theorem stateCallback_short_payload (s : State) (data : List Int) (h : data.length < 7) :
    ∃ s', stateCallback s data = some s' ∧
      (∀ (j : Fin 7) (hj : j.val < data.length), s'.moleStates j = data[j.val]) ∧
      (∀ j : Fin 7, data.length ≤ j.val → s'.moleStates j = s.moleStates j) ∧
      s'.newState = true ∧ s'.gameStarted = s.gameStarted ∧
      s'.autonomousMode = s.autonomousMode ∧ s'.newActionAllowed = s.newActionAllowed ∧
      s'.treeInitialized = s.treeInitialized ∧ s'.armPos = s.armPos ∧
      s'.robotPos = s.robotPos := by
  obtain ⟨s', hs', hm⟩ := stateCallback_in_bounds s data (by omega)
  refine ⟨s', hs', ?_, ?_, stateCallback_frame s s' data hs'⟩
  · intro j hj
    rw [hm j, List.getElem?_eq_getElem hj, Option.getD_some]
  · intro j hj
    rw [hm j, List.getElem?_eq_none hj, Option.getD_none]

/-- C8 (as amended) for the message `[9,9]` in the initial state. -/
theorem stateCallback_short_payload_witness :
    ([9, 9] : List Int).length < 7 ∧
      ∃ s', stateCallback mainInit [9, 9] = some s' ∧
        s'.moleStates 0 = 9 ∧ s'.moleStates 1 = 9 ∧
        s'.moleStates 2 = mainInit.moleStates 2 ∧ s'.moleStates 6 = mainInit.moleStates 6 ∧
        s'.newState = true :=
  have ⟨s', hs', hnew, hold, hflag, _⟩ := stateCallback_short_payload mainInit [9, 9] (by decide)
  ⟨by decide, s', hs', hnew 0 (by decide), hnew 1 (by decide), hold 2 (by decide),
    hold 6 (by decide), hflag⟩

/-- After `TimeLeft` with `seconds ≤ 0` the game is not started. -/
theorem timeLeft_reset_inactive (s : State) (seconds : Int) (h : seconds ≤ 0) :
    (timeLeftCallback s seconds).gameStarted = false := by
  simp [timeLeftCallback, h]

/-! ## Traces -/

/-- A property of the statics that every permitted step keeps while publishing
nothing is kept by every trace of permitted steps, which publishes nothing. -/
theorem run_silent (dtree : GDecisionTree) (P : State → Prop) (ok : Step → Prop)
    (hstep : ∀ s st, P s → ok st → ∃ s', step dtree s st = some (s', []) ∧ P s') :
    ∀ (tr : List Step) (s : State), P s → (∀ st ∈ tr, ok st) →
      ∃ s', run dtree s tr = some (s', []) ∧ P s' := by
  intro tr
  induction tr with
  | nil =>
    intro s hs _
    exact ⟨s, rfl, hs⟩
  | cons st rest ih =>
    intro s hs hok
    obtain ⟨s1, h1, hP1⟩ := hstep s st hs (hok st (List.mem_cons_self _ _))
    obtain ⟨s2, h2, hP2⟩ := ih s1 hP1 (fun x hx => hok x (List.mem_cons_of_mem _ hx))
    refine ⟨s2, ?_, hP2⟩
    simp only [run, h1, h2, List.append_nil]

/-- A trace whose `StateUpdate` messages carry at most 7 values runs to its
end. -/
theorem run_total (dtree : GDecisionTree) :
    ∀ (tr : List Step) (s : State), (∀ st ∈ tr, st.inBounds = true) →
      ∃ r, run dtree s tr = some r := by
  intro tr
  induction tr with
  | nil =>
    intro s _
    exact ⟨(s, []), rfl⟩
  | cons st rest ih =>
    intro s hok
    have hst := hok st (List.mem_cons_self _ _)
    have hstep : ∃ r1, step dtree s st = some r1 := by
      cases st with
      | tick => exact ⟨_, rfl⟩
      | event e =>
        cases e with
        | stateUpdate moles =>
          simp only [Step.inBounds, decide_eq_true_eq] at hst
          obtain ⟨s', hs', _⟩ := stateCallback_in_bounds s moles hst
          exact ⟨(s', []), by simp only [step, applyEvent, hs']⟩
        | _ => exact ⟨_, rfl⟩
    obtain ⟨⟨s1, out1⟩, h1⟩ := hstep
    obtain ⟨⟨s2, out2⟩, h2⟩ := ih s1 (fun x hx => hok x (List.mem_cons_of_mem _ hx))
    exact ⟨(s2, out1 ++ out2), by simp only [run, h1, h2]⟩

/-- While `newActionAllowed` is false, a step that is neither an
acknowledgment nor a session reset publishes nothing and leaves the flag
false. -/
theorem step_closed (dtree : GDecisionTree) (s : State) (st : Step)
    (hs : s.newActionAllowed = false)
    (hok : st.reopens = false ∧ st.inBounds = true) :
    ∃ s', step dtree s st = some (s', []) ∧ s'.newActionAllowed = false := by
  obtain ⟨hre, hin⟩ := hok
  cases st with
  | tick => exact ⟨s, by simp only [step, mainTick_closed dtree s hs], hs⟩
  | event e =>
    cases e with
    | whackComplete slot => simp [Step.reopens] at hre
    | robotArrived pos => simp [Step.reopens] at hre
    | stateUpdate moles =>
      simp only [Step.inBounds, decide_eq_true_eq] at hin
      obtain ⟨s', hs', _⟩ := stateCallback_in_bounds s moles hin
      refine ⟨s', by simp only [step, applyEvent, hs'], ?_⟩
      rw [(stateCallback_frame s s' moles hs').2.2.2.1, hs]
    | autonomousModeSet flag => exact ⟨_, rfl, hs⟩
    | gameStarted => exact ⟨_, rfl, hs⟩
    | timeLeft seconds =>
      simp only [Step.reopens, decide_eq_false_iff_not] at hre
      refine ⟨timeLeftCallback s seconds, rfl, ?_⟩
      simp only [timeLeftCallback, if_neg hre, hs]

/-- While `gameStarted` is false, a step other than `GameStarted` publishes
nothing and leaves the flag false. -/
theorem step_inactive (dtree : GDecisionTree) (s : State) (st : Step)
    (hs : s.gameStarted = false)
    (hok : st.isGameStarted = false ∧ st.inBounds = true) :
    ∃ s', step dtree s st = some (s', []) ∧ s'.gameStarted = false := by
  obtain ⟨hgs, hin⟩ := hok
  cases st with
  | tick =>
    have hno : ¬ GateOpen s := fun hg => by
      rw [hg.2.2.1] at hs
      exact Bool.noConfusion hs
    exact ⟨s, by simp only [step, mainTick_of_not_open dtree s hno], hs⟩
  | event e =>
    cases e with
    | whackComplete slot => exact ⟨_, rfl, hs⟩
    | robotArrived pos => exact ⟨_, rfl, hs⟩
    | stateUpdate moles =>
      simp only [Step.inBounds, decide_eq_true_eq] at hin
      obtain ⟨s', hs', _⟩ := stateCallback_in_bounds s moles hin
      refine ⟨s', by simp only [step, applyEvent, hs'], ?_⟩
      rw [(stateCallback_frame s s' moles hs').2.1, hs]
    | autonomousModeSet flag => exact ⟨_, rfl, hs⟩
    | gameStarted => simp [Step.isGameStarted] at hgs
    | timeLeft seconds =>
      refine ⟨timeLeftCallback s seconds, rfl, ?_⟩
      unfold timeLeftCallback
      simp only
      split_ifs
      · rfl
      · exact hs

/-- Single flight for messages that fit the array: after a tick that published a command, every trace of
ticks and events that holds no `WhackComplete`, no `RobotArrived` and no
`TimeLeft` with `seconds ≤ 0` (its `StateUpdate` messages carrying at most 7
values) runs to its end, publishes nothing, and leaves `newActionAllowed`
false, however many `StateUpdate`, `AutonomousModeSet`, `GameStarted` and
`TimeLeft(seconds > 0)` events it holds.  The state `s` is arbitrary, so this
covers the tick after any prefix of any trace. -/
theorem single_flight (dtree : GDecisionTree) (s : State) (tr : List Step)
    (hpub : (mainTick dtree s).2 ≠ [])
    (hquiet : ∀ st ∈ tr, st.reopens = false)
    (hbound : ∀ st ∈ tr, st.inBounds = true) :
    ∃ s', run dtree (mainTick dtree s).1 tr = some (s', []) ∧
      s'.newActionAllowed = false := by
  have hg : GateOpen s := gate_of_published dtree s hpub
  have hclosed : (mainTick dtree s).1.newActionAllowed = false := by
    rw [mainTick_of_open dtree s hg]
  exact run_silent dtree (fun x => x.newActionAllowed = false)
    (fun st => st.reopens = false ∧ st.inBounds = true)
    (step_closed dtree) tr _ hclosed (fun st hst => ⟨hquiet st hst, hbound st hst⟩)

/-- Single flight on a trace: after the tick in `readyState` has published, a new mole
state, a mode switch, a game start, a positive time-left and three ticks
publish nothing. -/
theorem single_flight_witness :
    (mainTick (constTree 1) readyState).2 ≠ [] ∧
      ∃ s', run (constTree 1) (mainTick (constTree 1) readyState).1
          [Step.tick, Step.event (Event.stateUpdate [1, 0, 0, 1, 0, 0, 0]), Step.tick,
           Step.event (Event.autonomousModeSet 1), Step.event Event.gameStarted,
           Step.event (Event.timeLeft 30), Step.tick] = some (s', []) ∧
        s'.newActionAllowed = false :=
  ⟨by decide,
   single_flight (constTree 1) readyState _ (by decide) (by decide) (by decide)⟩

/-- With the gate condition true and an action id in `[0,6)` a tick publishes
exactly one message. -/
theorem mainTick_length_of_in_range (dtree : GDecisionTree) (s : State) (hg : GateOpen s)
    (ha : 0 ≤ selectAction s s.moleStates dtree ∧ selectAction s s.moleStates dtree < 6) :
    (mainTick dtree s).2.length = 1 := by
  rw [mainTick_of_open dtree s hg]
  simp only
  split_ifs with h1 h2
  · rfl
  · rfl
  · exfalso
    omega

/-- One step keeps the relation between `newActionAllowed` and the count of
unacknowledged commands. -/
theorem step_unackedInv (dtree : GDecisionTree) (s s1 : State) (n : Nat) (st : Step)
    (out : List Publish) (hinv : UnackedInv dtree s n)
    (h : step dtree s st = some (s1, out)) :
    UnackedInv dtree s1 (if st.reopens then 0 else n + out.length) := by
  obtain ⟨hopen, hclosed⟩ := hinv
  cases st with
  | tick =>
    simp only [step, Option.some.injEq] at h
    simp only [Step.reopens, Bool.false_eq_true, if_false]
    by_cases hg : GateOpen s
    · have hn : n = 0 := hopen hg.2.2.2.2
      have hlen := mainTick_length_le_one dtree s
      have hlen1 := mainTick_length_of_in_range dtree s hg
      have hs1 : s1.newActionAllowed = false := by
        rw [mainTick_of_open dtree s hg] at h
        cases h
        rfl
      have hout : out = (mainTick dtree s).2 := by rw [h]
      refine ⟨fun hc => ?_, fun _ => ⟨?_, fun hr => ?_⟩⟩
      · rw [hs1] at hc
        exact Bool.noConfusion hc
      · rw [hout]
        omega
      · rw [hout, hlen1 (hr s)]
        omega
    · rw [mainTick_of_not_open dtree s hg] at h
      cases h
      exact ⟨by simpa using hopen, by simpa using hclosed⟩
  | event e =>
    cases e with
    | whackComplete slot =>
      cases h
      exact ⟨fun _ => rfl, fun hc => Bool.noConfusion hc⟩
    | robotArrived pos =>
      cases h
      exact ⟨fun _ => rfl, fun hc => Bool.noConfusion hc⟩
    | stateUpdate moles =>
      simp only [step, applyEvent] at h
      cases hsc : stateCallback s moles with
      | none => simp [hsc] at h
      | some s2 =>
        simp only [hsc, Option.some.injEq, Prod.mk.injEq] at h
        obtain ⟨rfl, rfl⟩ := h
        have hf := (stateCallback_frame s s2 moles hsc).2.2.2.1
        simp only [Step.reopens, Bool.false_eq_true, if_false, List.length_nil, Nat.add_zero]
        rw [UnackedInv, hf]
        exact ⟨hopen, hclosed⟩
    | autonomousModeSet flag =>
      cases h
      exact ⟨by simpa [Step.reopens] using hopen, by simpa [Step.reopens] using hclosed⟩
    | gameStarted =>
      cases h
      exact ⟨by simpa [Step.reopens] using hopen, by simpa [Step.reopens] using hclosed⟩
    | timeLeft seconds =>
      cases h
      by_cases hsec : seconds ≤ 0
      · simp only [Step.reopens, hsec, decide_True, if_true]
        refine ⟨fun _ => rfl, fun hc => ?_⟩
        simp [timeLeftCallback, hsec] at hc
      · simp only [Step.reopens, hsec, decide_False, Bool.false_eq_true, if_false,
          List.length_nil, Nat.add_zero, timeLeftCallback]
        exact ⟨hopen, hclosed⟩

/-- Every trace keeps the relation between `newActionAllowed` and the count of
unacknowledged commands. -/
theorem runUnacked_inv (dtree : GDecisionTree) :
    ∀ (tr : List Step) (s : State) (n : Nat) (s' : State) (n' : Nat),
      UnackedInv dtree s n → runUnacked dtree s n tr = some (s', n') →
      UnackedInv dtree s' n' := by
  intro tr
  induction tr with
  | nil =>
    intro s n s' n' hinv hrun
    simp only [runUnacked, Option.some.injEq, Prod.mk.injEq] at hrun
    obtain ⟨rfl, rfl⟩ := hrun
    exact hinv
  | cons st rest ih =>
    intro s n s' n' hinv hrun
    simp only [runUnacked] at hrun
    cases h1 : step dtree s st with
    | none => simp [h1] at hrun
    | some r1 =>
      obtain ⟨s1, out⟩ := r1
      simp only [h1] at hrun
      exact ih s1 _ s' n' (step_unackedInv dtree s s1 n st out hinv h1) hrun

/-- At start-up nothing is unacknowledged and a new action is allowed. -/
theorem initialState_unackedInv (dtree : GDecisionTree) (created : Bool) :
    UnackedInv dtree (initialState created) 0 := by
  refine ⟨fun _ => rfl, fun hc => ?_⟩
  cases created <;> exact Bool.noConfusion hc

/-- The classifier that always answers 1 stays in `[0,6)`. -/
theorem constTree_one_inRange : InRange (constTree 1) := by
  intro s
  show (0 : Int) ≤ truncToInt 1 ∧ truncToInt 1 < 6
  decide

/-- C9 (as stated) fails: from the initial state with the tree built,
`GameStarted`, `AutonomousModeSet(1)`, a `StateUpdate` of 7 values and one tick
with a classifier that answers 6 end with `newActionAllowed` false (an action
counts as in flight) and zero unacknowledged commands, nothing having been
published. -/
theorem in_flight_without_command :
    ((runUnacked (constTree 6) (initialState true) 0
        [Step.event Event.gameStarted, Step.event (Event.autonomousModeSet 1),
         Step.event (Event.stateUpdate [0, 0, 1, 0, 0, 0, 0]), Step.tick]).map
        fun r => (r.1.newActionAllowed, r.2)) = some (false, 0) ∧
      ((run (constTree 6) (initialState true)
        [Step.event Event.gameStarted, Step.event (Event.autonomousModeSet 1),
         Step.event (Event.stateUpdate [0, 0, 1, 0, 0, 0, 0]), Step.tick]).map
        fun r => r.2) = some [] := by
  decide

/-- With a record of unacknowledged commands, too, a trace whose `StateUpdate`
messages carry at most 7 values runs to its end. -/
theorem runUnacked_total (dtree : GDecisionTree) :
    ∀ (tr : List Step) (s : State) (n : Nat), (∀ st ∈ tr, st.inBounds = true) →
      ∃ r, runUnacked dtree s n tr = some r := by
  intro tr
  induction tr with
  | nil =>
    intro s n _
    exact ⟨(s, n), rfl⟩
  | cons st rest ih =>
    intro s n hok
    obtain ⟨⟨s1, out1⟩, h1⟩ : ∃ r1, step dtree s st = some r1 := by
      obtain ⟨r, hr⟩ := run_total dtree [st] s (fun x hx => hok x (by
        rw [List.mem_singleton] at hx
        rw [hx]
        exact List.mem_cons_self _ _))
      cases hst : step dtree s st with
      | none => simp [run, hst] at hr
      | some r1 => exact ⟨r1, rfl⟩
    obtain ⟨r2, h2⟩ := ih s1 (if st.reopens then 0 else n + out1.length)
      (fun x hx => hok x (List.mem_cons_of_mem _ hx))
    exact ⟨r2, by simp only [runUnacked, h1, h2]⟩

/-- C9 (as amended): every trace of events and ticks from the initial state
whose `StateUpdate` messages carry at most 7 values, with any classifier,
reaches a state in which, if `newActionAllowed` is false (an action is in
flight), at most one published command is unacknowledged, and exactly one if
the classifier only answers ids in `[0,6)`; if `newActionAllowed` is true then
none is. -/
theorem in_flight_unacked (dtree : GDecisionTree) (created : Bool) (tr : List Step)
    (hbound : ∀ st ∈ tr, st.inBounds = true) :
    ∃ s' n', runUnacked dtree (initialState created) 0 tr = some (s', n') ∧
      (s'.newActionAllowed = false → n' ≤ 1 ∧ (InRange dtree → n' = 1)) ∧
      (s'.newActionAllowed = true → n' = 0) := by
  obtain ⟨⟨s', n'⟩, hrun⟩ := runUnacked_total dtree tr (initialState created) 0 hbound
  have h := runUnacked_inv dtree tr (initialState created) 0 s' n'
    (initialState_unackedInv dtree created) hrun
  exact ⟨s', n', hrun, h.2, h.1⟩

/-- C9 (as amended) on `dispatchTrace` with a classifier that answers 1: the
trace ends with `newActionAllowed` false and exactly one unacknowledged
command. -/
theorem in_flight_unacked_witness :
    (∀ st ∈ dispatchTrace, st.inBounds = true) ∧ InRange (constTree 1) ∧
      ∃ s' n', runUnacked (constTree 1) (initialState true) 0 dispatchTrace = some (s', n') ∧
        s'.newActionAllowed = false ∧ n' = 1 := by
  obtain ⟨s', n', hrun, hclosed, _⟩ :=
    in_flight_unacked (constTree 1) true dispatchTrace (by decide)
  have hs : s'.newActionAllowed = false := by
    have hconc : (runUnacked (constTree 1) (initialState true) 0 dispatchTrace).map
        (fun r => r.1.newActionAllowed) = some false := by decide
    rw [hrun] at hconc
    simpa using hconc
  exact ⟨by decide, constTree_one_inRange, s', n', hrun, hs,
    (hclosed hs).2 constTree_one_inRange⟩

/-- No dispatch while inactive: no tick publishes while `gameStarted` is false (such a tick changes
nothing at all); hence a trace from the initial state that holds no
`GameStarted` publishes nothing, and after a `TimeLeft` with `seconds ≤ 0` a
trace that holds no `GameStarted` publishes nothing (`StateUpdate` messages
carrying at most 7 values, so that the trace runs to its end). -/
theorem no_dispatch_while_inactive (dtree : GDecisionTree) :
    (∀ s : State, s.gameStarted = false → mainTick dtree s = (s, [])) ∧
    (∀ (created : Bool) (tr : List Step),
      (∀ st ∈ tr, st.isGameStarted = false) → (∀ st ∈ tr, st.inBounds = true) →
      ∃ s', run dtree (initialState created) tr = some (s', []) ∧ s'.gameStarted = false) ∧
    (∀ (s : State) (seconds : Int) (tr : List Step), seconds ≤ 0 →
      (∀ st ∈ tr, st.isGameStarted = false) → (∀ st ∈ tr, st.inBounds = true) →
      ∃ s', run dtree (timeLeftCallback s seconds) tr = some (s', []) ∧
        s'.gameStarted = false) := by
  refine ⟨?_, ?_, ?_⟩
  · intro s hs
    apply mainTick_of_not_open
    intro hg
    rw [hg.2.2.1] at hs
    exact Bool.noConfusion hs
  · intro created tr hno hbound
    have hinit : (initialState created).gameStarted = false := by
      cases created <;> rfl
    exact run_silent dtree (fun x => x.gameStarted = false)
      (fun st => st.isGameStarted = false ∧ st.inBounds = true)
      (step_inactive dtree) tr _ hinit (fun st hst => ⟨hno st hst, hbound st hst⟩)
  · intro s seconds tr hsec hno hbound
    exact run_silent dtree (fun x => x.gameStarted = false)
      (fun st => st.isGameStarted = false ∧ st.inBounds = true)
      (step_inactive dtree) tr _ (timeLeft_reset_inactive s seconds hsec)
      (fun st hst => ⟨hno st hst, hbound st hst⟩)

/-- No dispatch while inactive, on traces: with every other flag true but `gameStarted` false a tick
does nothing; before the first `GameStarted`, and after `TimeLeft(0)` in
`readyState`, mode switches, mole states, acknowledgments and ticks publish
nothing. -/
theorem no_dispatch_while_inactive_witness :
    mainTick (constTree 1) { readyState with gameStarted := false } =
      ({ readyState with gameStarted := false }, []) ∧
    (∃ s', run (constTree 1) (initialState true)
        [Step.event (Event.autonomousModeSet 1),
         Step.event (Event.stateUpdate [1, 0, 0, 0, 0, 0, 0]), Step.tick,
         Step.event (Event.whackComplete 2), Step.tick] = some (s', []) ∧
      s'.gameStarted = false) ∧
    (∃ s', run (constTree 1) (timeLeftCallback readyState 0)
        [Step.tick, Step.event (Event.autonomousModeSet 1),
         Step.event (Event.stateUpdate [1, 0, 0, 0, 0, 0, 0]), Step.tick] = some (s', []) ∧
      s'.gameStarted = false) :=
  ⟨(no_dispatch_while_inactive (constTree 1)).1 { readyState with gameStarted := false } rfl,
   (no_dispatch_while_inactive (constTree 1)).2.1 true _ (by decide) (by decide),
   (no_dispatch_while_inactive (constTree 1)).2.2 readyState 0 _ (by decide) (by decide)
     (by decide)⟩

/-! ## Integer ranges -/

/-- The initial positions are in range. -/
theorem initialState_posBounded (created : Bool) : PosBounded (initialState created) := by
  cases created <;> simp [PosBounded, initialState, initializeTree, mainInit]

/-- In a state with positions in range and for a 16-bit payload, the
arithmetic of `whackCallback` and `robotArriveCallback` stays inside `int`. -/
theorem callbacks_fit_int32 (s : State) (data : Int) (hs : PosBounded s)
    (hd : fitsInt16 data) :
    fitsInt32 (2 * s.robotPos) ∧ fitsInt32 (data - 2 * s.robotPos) ∧ fitsInt32 (data - 1) := by
  unfold PosBounded at hs
  unfold fitsInt16 at hd
  unfold fitsInt32
  omega

/-- One step with 16-bit payloads keeps the positions in range. -/
theorem step_posBounded (dtree : GDecisionTree) (s s' : State) (out : List Publish)
    (st : Step) (hs : PosBounded s) (hp : st.payloadFits)
    (h : step dtree s st = some (s', out)) : PosBounded s' := by
  cases st with
  | tick =>
    simp only [step, Option.some.injEq] at h
    by_cases hg : GateOpen s
    · rw [mainTick_of_open dtree s hg] at h
      cases h
      exact hs
    · rw [mainTick_of_not_open dtree s hg] at h
      cases h
      exact hs
  | event e =>
    cases e with
    | whackComplete slot =>
      cases h
      simp only [Step.payloadFits, Event.payloadFits, fitsInt16] at hp
      unfold PosBounded at hs ⊢
      simp only [whackCallback, wrapInt32]
      omega
    | robotArrived pos =>
      cases h
      simp only [Step.payloadFits, Event.payloadFits, fitsInt16] at hp
      unfold PosBounded at hs ⊢
      simp only [robotArriveCallback]
      omega
    | stateUpdate moles =>
      simp only [step, applyEvent] at h
      cases hsc : stateCallback s moles with
      | none => simp [hsc] at h
      | some s1 =>
        simp only [hsc, Option.some.injEq, Prod.mk.injEq] at h
        obtain ⟨rfl, _⟩ := h
        have hf := stateCallback_frame s s1 moles hsc
        unfold PosBounded at hs ⊢
        rw [hf.2.2.2.2.2.2, hf.2.2.2.2.2.1]
        exact hs
    | autonomousModeSet flag =>
      cases h
      exact hs
    | gameStarted =>
      cases h
      exact hs
    | timeLeft seconds =>
      cases h
      unfold PosBounded at hs ⊢
      unfold timeLeftCallback
      simp only
      split_ifs
      · simp
      · exact hs

/-- With 16-bit payloads, every state reached from a state with positions in
range (the initial state is one) has its positions in range, so that no
computation of the node leaves the 32-bit `int`. -/
theorem reachable_fits_int32 (dtree : GDecisionTree) :
    ∀ (tr : List Step) (s s' : State) (out : List Publish), PosBounded s →
      (∀ st ∈ tr, st.payloadFits) → run dtree s tr = some (s', out) → PosBounded s' := by
  intro tr
  induction tr with
  | nil =>
    intro s s' out hs _ h
    simp only [run, Option.some.injEq, Prod.mk.injEq] at h
    obtain ⟨rfl, _⟩ := h
    exact hs
  | cons st rest ih =>
    intro s s' out hs hp h
    simp only [run] at h
    cases h1 : step dtree s st with
    | none => simp [h1] at h
    | some r1 =>
      obtain ⟨s1, out1⟩ := r1
      simp only [h1] at h
      cases h2 : run dtree s1 rest with
      | none => simp [h2] at h
      | some r2 =>
        obtain ⟨s2, out2⟩ := r2
        simp only [h2, Option.some.injEq, Prod.mk.injEq] at h
        obtain ⟨rfl, _⟩ := h
        exact ih s1 s2 out2
          (step_posBounded dtree s s1 out1 st hs (hp st (List.mem_cons_self _ _)) h1)
          (fun x hx => hp x (List.mem_cons_of_mem _ hx)) h2

/-! ## The call to the classifier -/

/-- The conversion `(int) d` of a double that holds an integer gives that
integer. -/
theorem truncToInt_intCast (n : Int) : truncToInt (n : ℚ) = n := by
  simp [truncToInt]

/-- The array that `selectAction` hands to `predict` is the feature vector. -/
theorem selectAction_eq (dtree : GDecisionTree) (s : State) :
    selectAction s s.moleStates dtree = truncToInt (dtree.predict (featureVector s)) :=
  rfl

/-- The conversion `(int) d` of a double that is not negative is its floor. -/
theorem truncToInt_nonneg (d : ℚ) (h : 0 ≤ d) : truncToInt d = ⌊d⌋ := by
  unfold truncToInt
  rw [Rat.floor_def, Int.tdiv_eq_ediv (Rat.num_nonneg.2 h) (by positivity)]

/-- The conversion `(int) d` commutes with the sign. -/
theorem truncToInt_neg (d : ℚ) : truncToInt (-d) = -truncToInt d := by
  unfold truncToInt
  rw [Rat.neg_num, Rat.neg_den, Int.neg_tdiv]

/-- The conversion `(int) d` truncates towards zero: for `d ≥ 0` it is the
integer `t` with `t ≤ d < t + 1`, for `d ≤ 0` the integer `t` with
`t - 1 < d ≤ t`. -/
theorem truncToInt_spec (d : ℚ) :
    (0 ≤ d → (truncToInt d : ℚ) ≤ d ∧ d < truncToInt d + 1) ∧
      (d ≤ 0 → d ≤ truncToInt d ∧ (truncToInt d : ℚ) - 1 < d) := by
  constructor
  · intro h
    rw [truncToInt_nonneg d h]
    exact ⟨Int.floor_le d, Int.lt_floor_add_one d⟩
  · intro h
    have hneg : 0 ≤ -d := by linarith
    have e : truncToInt d = -⌊-d⌋ := by
      have hn := truncToInt_neg (-d)
      rw [neg_neg] at hn
      rw [hn, truncToInt_nonneg (-d) hneg]
    rw [e]
    have h1 := Int.floor_le (-d)
    have h2 := Int.lt_floor_add_one (-d)
    push_cast
    constructor <;> linarith

/-- The double 11/2 is converted to 5. -/
theorem truncToInt_eleven_halves : truncToInt (11 / 2) = 5 := by
  rw [truncToInt_nonneg _ (by norm_num)]
  norm_num [Int.floor_eq_iff]

/-- The double -1/2 is converted to 0, not to -1. -/
theorem truncToInt_neg_half : truncToInt (-1 / 2) = 0 := by
  have h : (-1 / 2 : ℚ) = -(1 / 2) := by norm_num
  rw [h, truncToInt_neg, truncToInt_nonneg _ (by norm_num)]
  norm_num [Int.floor_eq_iff]

/-- For every monad, the loop body with the gate condition true is one call of
`predict`, on the feature vector, followed by a computation without effects
on the double returned. -/
theorem mainTickM_of_open {m : Type → Type} [Monad m] [LawfulMonad m]
    (predict : List ℚ → m ℚ) (s : State) (h : GateOpen s) :
    mainTickM predict s =
      predict (featureVector s) >>= fun d =>
        pure ({ s with newActionAllowed := false, newState := false },
          if truncToInt d ≥ 0 ∧ truncToInt d < 3 then [Publish.armPosPub (truncToInt d + 1)]
          else if truncToInt d ≥ 3 ∧ truncToInt d < 6 then
            [Publish.robotPosPub (truncToInt d - 2)]
          else []) := by
  unfold mainTickM selectActionM
  rw [if_pos ((gate_cond_iff s).2 h)]
  simp only [bind_assoc, pure_bind]
  rfl

/-- For every monad, the loop body with the gate condition false makes no
call of `predict`. -/
theorem mainTickM_of_not_open {m : Type → Type} [Monad m] (predict : List ℚ → m ℚ)
    (s : State) (h : ¬ GateOpen s) : mainTickM predict s = pure (s, []) := by
  unfold mainTickM
  rw [if_neg (fun hc => h ((gate_cond_iff s).1 hc))]

/-- C13: in a tick in which the gate condition holds, `predict` is called
exactly once, on the 9-element vector made of `moleStates[0..6]`, then
`robotPos` (index 7), then `armPos` (index 8), taken from the state at the
start of the tick: run with a classifier that records its calls, the loop body
adds exactly this vector to the record, and for every monad it is that one
call followed by a computation without effects.  The action id that decides
what is published is the integer conversion of the one double returned, and
that conversion truncates towards zero. -/
theorem predict_called_once (dtree : GDecisionTree) (s : State) (hg : GateOpen s) :
    (∀ calls : List (List ℚ),
      (mainTickM (recordedPredict dtree) s).run calls =
        (mainTick dtree s, calls ++ [featureVector s])) ∧
      (∀ (m : Type → Type) [Monad m] [LawfulMonad m] (predict : List ℚ → m ℚ),
        mainTickM predict s =
          predict (featureVector s) >>= fun d =>
            pure ({ s with newActionAllowed := false, newState := false },
              if truncToInt d ≥ 0 ∧ truncToInt d < 3 then
                [Publish.armPosPub (truncToInt d + 1)]
              else if truncToInt d ≥ 3 ∧ truncToInt d < 6 then
                [Publish.robotPosPub (truncToInt d - 2)]
              else [])) ∧
      (featureVector s).length = 9 ∧
      (∀ i : Fin 7, (featureVector s)[i.val]? = some (s.moleStates i : ℚ)) ∧
      (featureVector s)[7]? = some (s.robotPos : ℚ) ∧
      (featureVector s)[8]? = some (s.armPos : ℚ) ∧
      (mainTick dtree s).2 =
        (if truncToInt (dtree.predict (featureVector s)) ≥ 0 ∧
            truncToInt (dtree.predict (featureVector s)) < 3 then
          [Publish.armPosPub (truncToInt (dtree.predict (featureVector s)) + 1)]
        else if truncToInt (dtree.predict (featureVector s)) ≥ 3 ∧
            truncToInt (dtree.predict (featureVector s)) < 6 then
          [Publish.robotPosPub (truncToInt (dtree.predict (featureVector s)) - 2)]
        else []) ∧
      (∀ d : ℚ,
        (0 ≤ d → (truncToInt d : ℚ) ≤ d ∧ d < truncToInt d + 1) ∧
        (d ≤ 0 → d ≤ truncToInt d ∧ (truncToInt d : ℚ) - 1 < d)) := by
  refine ⟨?_, ?_, rfl, ?_, rfl, rfl, ?_, truncToInt_spec⟩
  · intro calls
    rw [mainTickM_of_open (recordedPredict dtree) s hg, mainTick_of_open dtree s hg]
    rfl
  · intro m _ _ predict
    exact mainTickM_of_open predict s hg
  · intro i
    fin_cases i <;> rfl
  · rw [mainTick_of_open dtree s hg, selectAction_eq]

/-- C13 in `readyState` with robot position 2 and arm position 0, for a
classifier that answers the feature at index 7 plus 7/2: the record holds the
one call on `[0,0,0,0,0,0,0,2,0]`, and the double 11/2 is converted to the
action id 5, which gives the robot command 3. -/
theorem predict_called_once_witness :
    GateOpen { readyState with robotPos := 2, armPos := 0 } ∧
      (mainTickM (recordedPredict robotPlusHalf)
          { readyState with robotPos := 2, armPos := 0 }).run [] =
        (mainTick robotPlusHalf { readyState with robotPos := 2, armPos := 0 },
          [[0, 0, 0, 0, 0, 0, 0, 2, 0]]) ∧
      (mainTick robotPlusHalf { readyState with robotPos := 2, armPos := 0 }).2 =
        [Publish.robotPosPub 3] := by
  have h := predict_called_once robotPlusHalf
    { readyState with robotPos := 2, armPos := 0 } (by decide)
  have hfv : featureVector { readyState with robotPos := 2, armPos := 0 } =
      [0, 0, 0, 0, 0, 0, 0, 2, 0] := by
    simp [featureVector, State.molesList, readyState]
  have hd : robotPlusHalf.predict [0, 0, 0, 0, 0, 0, 0, 2, 0] = 11 / 2 := by
    simp [robotPlusHalf]
    norm_num
  refine ⟨by decide, ?_, ?_⟩
  · have h1 := h.1 []
    rw [hfv] at h1
    exact h1
  · rw [h.2.2.2.2.2.2.1, hfv, hd, truncToInt_eleven_halves]
    decide

/-! ## Frame properties -/

/-- C14: a tick in which the gate condition holds clears `newState` and
`newActionAllowed` (the gate is closed, an action is in flight) and leaves
`gameStarted`, `autonomousMode`, `treeInitialized`, `moleStates`, `robotPos`
and `armPos` as they were; a tick in which the gate condition does not hold
leaves the whole state as it was. -/
theorem tick_frame (dtree : GDecisionTree) (s : State) :
    (GateOpen s →
      (mainTick dtree s).1.newState = false ∧
      (mainTick dtree s).1.newActionAllowed = false ∧
      (mainTick dtree s).1.gameStarted = s.gameStarted ∧
      (mainTick dtree s).1.autonomousMode = s.autonomousMode ∧
      (mainTick dtree s).1.treeInitialized = s.treeInitialized ∧
      (mainTick dtree s).1.moleStates = s.moleStates ∧
      (mainTick dtree s).1.robotPos = s.robotPos ∧
      (mainTick dtree s).1.armPos = s.armPos) ∧
    (¬ GateOpen s → (mainTick dtree s).1 = s) := by
  constructor
  · intro hg
    rw [mainTick_of_open dtree s hg]
    exact ⟨rfl, rfl, rfl, rfl, rfl, rfl, rfl, rfl⟩
  · intro hg
    rw [mainTick_of_not_open dtree s hg]

/-- C14 in `readyState` (gate condition true) and in `readyState` without a
new mole state (gate condition false). -/
theorem tick_frame_witness :
    GateOpen readyState ∧
      (mainTick (constTree 4) readyState).1.newState = false ∧
      (mainTick (constTree 4) readyState).1.newActionAllowed = false ∧
      (mainTick (constTree 4) readyState).1.moleStates = readyState.moleStates ∧
      ¬ GateOpen { readyState with newState := false } ∧
      (mainTick (constTree 4) { readyState with newState := false }).1 =
        { readyState with newState := false } :=
  have h := (tick_frame (constTree 4) readyState).1 (by decide)
  ⟨by decide, h.1, h.2.1, h.2.2.2.2.2.1, by decide,
    (tick_frame (constTree 4) { readyState with newState := false }).2 (by decide)⟩

/-- C16: a `StateUpdate` of exactly 7 values is taken: afterwards `moleStates`
holds the 7 values of the message in order, `newState` is true, and
`robotPos`, `armPos`, `gameStarted`, `autonomousMode`, `newActionAllowed`
(and `treeInitialized`) are as before. -/
theorem stateUpdate_replaces (s : State) (m : List Int) (h : m.length = 7) :
    ∃ s', applyEvent s (Event.stateUpdate m) = some s' ∧
      s'.molesList = m ∧
      (∀ (j : Fin 7) (hj : j.val < m.length), s'.moleStates j = m[j.val]) ∧
      s'.newState = true ∧ s'.gameStarted = s.gameStarted ∧
      s'.autonomousMode = s.autonomousMode ∧ s'.newActionAllowed = s.newActionAllowed ∧
      s'.treeInitialized = s.treeInitialized ∧ s'.armPos = s.armPos ∧
      s'.robotPos = s.robotPos := by
  obtain ⟨s', hs', hm⟩ := stateCallback_in_bounds s m (by omega)
  have hget : ∀ (j : Fin 7) (hj : j.val < m.length), s'.moleStates j = m[j.val] := by
    intro j hj
    rw [hm j, List.getElem?_eq_getElem hj, Option.getD_some]
  refine ⟨s', hs', ?_, hget, stateCallback_frame s s' m hs'⟩
  apply List.ext_getElem
  · rw [h]
    rfl
  · intro i h1 h2
    have hi : i < 7 := by
      simpa [State.molesList] using h1
    rw [← hget ⟨i, hi⟩ h2]
    simp only [State.molesList]
    interval_cases i <;> rfl

/-- C16 for the message `[3,1,4,1,5,9,2]` in `readyState`. -/
theorem stateUpdate_replaces_witness :
    ([3, 1, 4, 1, 5, 9, 2] : List Int).length = 7 ∧
      ∃ s', applyEvent readyState (Event.stateUpdate [3, 1, 4, 1, 5, 9, 2]) = some s' ∧
        s'.molesList = [3, 1, 4, 1, 5, 9, 2] ∧ s'.newState = true ∧
        s'.newActionAllowed = readyState.newActionAllowed :=
  have ⟨s', hs', hl, _, hn, _, _, ha, _⟩ :=
    stateUpdate_replaces readyState [3, 1, 4, 1, 5, 9, 2] (by decide)
  ⟨by decide, s', hs', hl, hn, ha⟩

/-- C19: `TimeLeft` with `seconds > 0` leaves the whole state as it was:
`gameStarted`, `autonomousMode`, `newState`, `newActionAllowed`,
`treeInitialized`, `moleStates`, `robotPos` and `armPos` keep their values. -/
theorem timeLeft_positive_frame (s : State) (seconds : Int) (h : 0 < seconds) :
    applyEvent s (Event.timeLeft seconds) = some s ∧ timeLeftCallback s seconds = s := by
  have hs : timeLeftCallback s seconds = s := by
    unfold timeLeftCallback
    simp only
    rw [if_neg (by omega)]
  exact ⟨by rw [applyEvent, hs], hs⟩

/-- C19 for `TimeLeft(30)` in the state after the tick of `readyState`. -/
theorem timeLeft_positive_frame_witness :
    (0 : Int) < 30 ∧
      timeLeftCallback (mainTick (constTree 1) readyState).1 30 =
        (mainTick (constTree 1) readyState).1 :=
  ⟨by decide, (timeLeft_positive_frame (mainTick (constTree 1) readyState).1 30 (by decide)).2⟩

/-! ## The session -/

/-- C15 (as stated) fails: `AutonomousModeSet(1)` in the initial state gives an
Idle state (`gameStarted` false) that is reachable; `GameStarted` applied to
it gives `gameStarted` true with `autonomousMode` true, which is not the
SessionActive state. -/
theorem gameStarted_keeps_autonomous_on :
    ((run (constTree 1) (initialState true)
        [Step.event (Event.autonomousModeSet 1)]).map fun r =>
        (r.1.gameStarted, (gameStartedCallback r.1).gameStarted,
          (gameStartedCallback r.1).autonomousMode)) = some (false, true, true) := by
  decide

/-- C15 (as amended): `GameStarted` sets `gameStarted` and leaves
`autonomousMode` and every other static as it was, in every state; so from an
Idle state it yields the SessionActive state (`gameStarted` true,
`autonomousMode` false) exactly when `autonomousMode` was false before, as it
is in the initial state and after a `TimeLeft` with `seconds ≤ 0`. -/
theorem gameStarted_effect (s : State) :
    gameStartedCallback s = { s with gameStarted := true } ∧
      (gameStartedCallback s).gameStarted = true ∧
      (gameStartedCallback s).autonomousMode = s.autonomousMode ∧
      ((gameStartedCallback s).gameStarted = true ∧
          (gameStartedCallback s).autonomousMode = false ↔ s.autonomousMode = false) ∧
      (∀ created : Bool, (gameStartedCallback (initialState created)).gameStarted = true ∧
        (gameStartedCallback (initialState created)).autonomousMode = false) ∧
      (∀ seconds : Int, seconds ≤ 0 →
        (gameStartedCallback (timeLeftCallback s seconds)).gameStarted = true ∧
        (gameStartedCallback (timeLeftCallback s seconds)).autonomousMode = false) := by
  refine ⟨rfl, rfl, rfl, ⟨fun h => h.2, fun h => ⟨rfl, h⟩⟩, ?_, ?_⟩
  · intro created
    cases created <;> exact ⟨rfl, rfl⟩
  · intro seconds hsec
    refine ⟨rfl, ?_⟩
    simp [gameStartedCallback, timeLeftCallback, hsec]

/-- C15 (as amended) after `TimeLeft(0)` in `readyState`. -/
theorem gameStarted_effect_witness :
    (0 : Int) ≤ 0 ∧
      (gameStartedCallback (timeLeftCallback readyState 0)).gameStarted = true ∧
      (gameStartedCallback (timeLeftCallback readyState 0)).autonomousMode = false :=
  ⟨by decide, (gameStarted_effect readyState).2.2.2.2.2 0 (by decide)⟩

/-! ## Traces: the tree, the end-to-end scenario, the reset, the positions -/

/-- While `treeInitialized` is false, a step publishes nothing and leaves the
flag false. -/
theorem step_untrained (dtree : GDecisionTree) (s : State) (st : Step)
    (hs : s.treeInitialized = false) (hok : st.inBounds = true) :
    ∃ s', step dtree s st = some (s', []) ∧ s'.treeInitialized = false := by
  cases st with
  | tick =>
    have hno : ¬ GateOpen s := fun hg => by
      rw [hg.2.1] at hs
      exact Bool.noConfusion hs
    exact ⟨s, by simp only [step, mainTick_of_not_open dtree s hno], hs⟩
  | event e =>
    cases e with
    | whackComplete slot => exact ⟨_, rfl, hs⟩
    | robotArrived pos => exact ⟨_, rfl, hs⟩
    | stateUpdate moles =>
      simp only [Step.inBounds, decide_eq_true_eq] at hok
      obtain ⟨s', hs', _⟩ := stateCallback_in_bounds s moles hok
      refine ⟨s', by simp only [step, applyEvent, hs'], ?_⟩
      rw [(stateCallback_frame s s' moles hs').2.2.2.2.1, hs]
    | autonomousModeSet flag => exact ⟨_, rfl, hs⟩
    | gameStarted => exact ⟨_, rfl, hs⟩
    | timeLeft seconds =>
      refine ⟨timeLeftCallback s seconds, rfl, ?_⟩
      unfold timeLeftCallback
      simp only
      split_ifs
      · exact hs
      · exact hs

/-- No handler reads `treeInitialized`: a handler run with the flag cleared
does to the other statics what it does with the flag as it is. -/
theorem applyEvent_ignores_tree (s : State) (e : Event) :
    applyEvent { s with treeInitialized := false } e =
      (applyEvent s e).map fun s' => { s' with treeInitialized := false } := by
  cases e with
  | stateUpdate moles =>
    simp only [applyEvent, stateCallback]
    cases stateCallbackLoop moles 0 s.moleStates <;> rfl
  | timeLeft seconds =>
    simp only [applyEvent, timeLeftCallback, Option.map_some']
    split_ifs <;> rfl
  | _ => rfl

/-- No dispatch without a tree: when the decision tree was not built, `treeInitialized` is false when
the loop starts; from any state with the flag false every trace of events and
ticks (`StateUpdate` messages carrying at most 7 values) runs to its end,
publishes nothing and leaves the flag false; and every handler does to the
other statics what it does when the flag is set. -/
theorem tree_missing_never_dispatches (dtree : GDecisionTree) :
    (initialState false).treeInitialized = false ∧
    (∀ (s : State) (tr : List Step), s.treeInitialized = false →
      (∀ st ∈ tr, st.inBounds = true) →
      ∃ s', run dtree s tr = some (s', []) ∧ s'.treeInitialized = false) ∧
    (∀ (s : State) (e : Event),
      applyEvent { s with treeInitialized := false } e =
        (applyEvent s e).map fun s' => { s' with treeInitialized := false }) := by
  refine ⟨rfl, ?_, applyEvent_ignores_tree⟩
  intro s tr hs hbound
  exact run_silent dtree (fun x => x.treeInitialized = false) (fun st => st.inBounds = true)
    (step_untrained dtree) tr s hs hbound

/-- No dispatch without a tree, on `dispatchTrace` followed by an acknowledgment and a tick, from the
initial state without a tree: nothing is published. -/
theorem tree_missing_never_dispatches_witness :
    (initialState false).treeInitialized = false ∧
      ∃ s', run (constTree 1) (initialState false)
          (dispatchTrace ++ [Step.event (Event.whackComplete 2), Step.tick]) = some (s', []) ∧
        s'.treeInitialized = false :=
  ⟨(tree_missing_never_dispatches (constTree 1)).1,
   (tree_missing_never_dispatches (constTree 1)).2.1 (initialState false) _ rfl (by decide)⟩

/-- Running two traces one after the other. -/
theorem run_append (dtree : GDecisionTree) :
    ∀ (tr1 tr2 : List Step) (s s1 s2 : State) (out1 out2 : List Publish),
      run dtree s tr1 = some (s1, out1) → run dtree s1 tr2 = some (s2, out2) →
      run dtree s (tr1 ++ tr2) = some (s2, out1 ++ out2) := by
  intro tr1
  induction tr1 with
  | nil =>
    intro tr2 s s1 s2 out1 out2 h1 h2
    simp only [run, Option.some.injEq, Prod.mk.injEq] at h1
    obtain ⟨rfl, rfl⟩ := h1
    simpa using h2
  | cons st rest ih =>
    intro tr2 s s1 s2 out1 out2 h1 h2
    simp only [run] at h1
    cases hst : step dtree s st with
    | none => simp [hst] at h1
    | some r =>
      obtain ⟨sa, oa⟩ := r
      simp only [hst] at h1
      cases hrest : run dtree sa rest with
      | none => simp [hrest] at h1
      | some r2 =>
        obtain ⟨sb, ob⟩ := r2
        simp only [hrest, Option.some.injEq, Prod.mk.injEq] at h1
        obtain ⟨rfl, rfl⟩ := h1
        have hih := ih tr2 sa sb s2 ob out2 hrest h2
        rw [List.cons_append, run, hst]
        simp only [hih, List.append_assoc]

/-- Ticks that do nothing can be repeated any number of times. -/
theorem run_ticks_idle (dtree : GDecisionTree) (s : State) (h : mainTick dtree s = (s, [])) :
    ∀ k : Nat, run dtree s (List.replicate k Step.tick) = some (s, []) := by
  intro k
  induction k with
  | zero => rfl
  | succ k ih => simp only [List.replicate_succ, run, step, h, ih, List.append_nil]

/-- Without a new mole state a tick does nothing. -/
theorem mainTick_stale (dtree : GDecisionTree) (s : State) (h : s.newState = false) :
    mainTick dtree s = (s, []) := by
  apply mainTick_of_not_open
  intro hg
  rw [hg.2.2.2.1] at h
  exact Bool.noConfusion h

/-- With the gate condition true and a classifier that stays in `[0,6)`, a
tick publishes exactly one message and closes the gate. -/
theorem tick_dispatches_one (dtree : GDecisionTree) (s : State) (hg : GateOpen s)
    (hr : InRange dtree) :
    ∃ c, mainTick dtree s = ({ s with newActionAllowed := false, newState := false }, [c]) := by
  rw [mainTick_of_open dtree s hg]
  have h := hr s
  split_ifs with h1 h2
  · exact ⟨_, rfl⟩
  · exact ⟨_, rfl⟩
  · exfalso
    omega

/-- A `StateUpdate` of at most 7 values in an armed state that allows an
action makes the gate condition true. -/
theorem stateUpdate_opens (s : State) (m : List Int) (ha : Armed s)
    (hallow : s.newActionAllowed = true) (hm : m.length ≤ 7) :
    ∃ s', applyEvent s (Event.stateUpdate m) = some s' ∧ GateOpen s' := by
  obtain ⟨s', hs', _⟩ := stateCallback_in_bounds s m hm
  have hf := stateCallback_frame s s' m hs'
  refine ⟨s', hs', ?_⟩
  unfold GateOpen
  rw [hf.1, hf.2.1, hf.2.2.1, hf.2.2.2.1, hf.2.2.2.2.1]
  exact ⟨ha.1, ha.2.1, ha.2.2, rfl, hallow⟩

/-- An acknowledgment allows a new action and leaves the armed flags and
`newState` as they were. -/
theorem ack_reopens (s : State) (ack : Event) (hack : ack.isAck = true) :
    ∃ s', applyEvent s ack = some s' ∧ s'.newActionAllowed = true ∧
      s'.newState = s.newState ∧ (Armed s → Armed s') := by
  cases ack with
  | whackComplete slot => exact ⟨_, rfl, rfl, rfl, fun h => h⟩
  | robotArrived pos => exact ⟨_, rfl, rfl, rfl, fun h => h⟩
  | stateUpdate moles => simp [Event.isAck] at hack
  | autonomousModeSet flag => simp [Event.isAck] at hack
  | gameStarted => simp [Event.isAck] at hack
  | timeLeft seconds => simp [Event.isAck] at hack

/-- The trace `setupTrace m` from the initial state with the tree built runs
to its end, publishes nothing and makes the gate condition true. -/
theorem setupTrace_opens (dtree : GDecisionTree) (m : List Int) (hm : m.length = 7) :
    ∃ s3, run dtree (initialState true) (setupTrace m) = some (s3, []) ∧ GateOpen s3 := by
  have ha : Armed (autoModeCallback (gameStartedCallback (initialState true)) 1) :=
    ⟨rfl, rfl, rfl⟩
  obtain ⟨s3, hs3, hg⟩ := stateUpdate_opens _ m ha rfl (by omega)
  refine ⟨s3, ?_, hg⟩
  simp only [applyEvent] at hs3
  simp only [setupTrace, run, step, applyEvent, hs3, List.append_nil]

/-- After `TimeLeft` with `seconds ≤ 0` the three flags that the gate condition
needs from the events are false. -/
theorem reset_clears_flags (s : State) (seconds : Int) (h : seconds ≤ 0) :
    (timeLeftCallback s seconds).gameStarted = false ∧
      (timeLeftCallback s seconds).autonomousMode = false ∧
      (timeLeftCallback s seconds).newState = false := by
  simp [timeLeftCallback, h]

/-- C12, end to end, for a classifier that stays in `[0,6)` and 7-element mole
vectors `m` and `m2`: from the initial state with the tree built,
`GameStarted`, `AutonomousModeSet(1)` and `StateUpdate(m)` publish nothing and
the next tick publishes exactly one command `c1`; any number of further ticks
publish nothing; after a `WhackComplete` or `RobotArrived` any number of ticks
still publish nothing; after `StateUpdate(m2)` the next tick publishes exactly
one command `c2`; the whole trace publishes `[c1, c2]`. -/
theorem end_to_end (dtree : GDecisionTree) (m m2 : List Int) (hr : InRange dtree)
    (hm : m.length = 7) (hm2 : m2.length = 7) :
    ∃ s3 s4 c1,
      run dtree (initialState true) (setupTrace m) = some (s3, []) ∧
      mainTick dtree s3 = (s4, [c1]) ∧
      (∀ k : Nat, run dtree s4 (List.replicate k Step.tick) = some (s4, [])) ∧
      ∀ ack : Event, ack.isAck = true →
        ∃ s5 s6 s7 c2,
          applyEvent s4 ack = some s5 ∧
          (∀ k : Nat, run dtree s5 (List.replicate k Step.tick) = some (s5, [])) ∧
          applyEvent s5 (Event.stateUpdate m2) = some s6 ∧
          mainTick dtree s6 = (s7, [c2]) ∧
          ∀ k j : Nat, run dtree (initialState true)
            (setupTrace m ++ [Step.tick] ++ List.replicate k Step.tick ++ [Step.event ack] ++
              List.replicate j Step.tick ++ [Step.event (Event.stateUpdate m2), Step.tick]) =
            some (s7, [c1, c2]) := by
  obtain ⟨s3, hrun3, hg3⟩ := setupTrace_opens dtree m hm
  obtain ⟨c1, hc1⟩ := tick_dispatches_one dtree s3 hg3 hr
  have harmed4 : Armed { s3 with newActionAllowed := false, newState := false } :=
    ⟨hg3.1, hg3.2.1, hg3.2.2.1⟩
  have hidle4 := run_ticks_idle dtree { s3 with newActionAllowed := false, newState := false }
    (mainTick_closed dtree _ rfl)
  refine ⟨s3, _, c1, hrun3, hc1, hidle4, ?_⟩
  intro ack hack
  obtain ⟨s5, hs5, hallow5, hnew5, harmed5⟩ :=
    ack_reopens { s3 with newActionAllowed := false, newState := false } ack hack
  have hstale5 : s5.newState = false := hnew5
  have hidle5 := run_ticks_idle dtree s5 (mainTick_stale dtree s5 hstale5)
  obtain ⟨s6, hs6, hg6⟩ := stateUpdate_opens s5 m2 (harmed5 harmed4) hallow5 (by omega)
  obtain ⟨c2, hc2⟩ := tick_dispatches_one dtree s6 hg6 hr
  refine ⟨s5, s6, _, c2, hs5, hidle5, hs6, hc2, ?_⟩
  intro k j
  have hB : run dtree s3 [Step.tick] =
      some ({ s3 with newActionAllowed := false, newState := false }, [c1]) := by
    simp only [run, step, hc1, List.append_nil]
  have hD : run dtree { s3 with newActionAllowed := false, newState := false }
      [Step.event ack] = some (s5, []) := by
    simp only [run, step, hs5, List.append_nil]
  have hF : run dtree s5 [Step.event (Event.stateUpdate m2), Step.tick] =
      some ({ s6 with newActionAllowed := false, newState := false }, [c2]) := by
    simp only [run, step, hs6, hc2, List.append_nil, List.nil_append]
  have h1 := run_append dtree _ _ _ _ _ _ _ hrun3 hB
  have h2 := run_append dtree _ _ _ _ _ _ _ h1 (hidle4 k)
  have h3 := run_append dtree _ _ _ _ _ _ _ h2 hD
  have h4 := run_append dtree _ _ _ _ _ _ _ h3 (hidle5 j)
  have h5 := run_append dtree _ _ _ _ _ _ _ h4 hF
  simpa using h5

/-- C12 for the classifier that always answers 1, the mole vectors
`[0,0,1,0,0,0,0]` and `[0,1,1,0,0,0,0]` and the acknowledgment
`WhackComplete(2)`, with two ticks after the dispatch and three after the
acknowledgment: the trace publishes two commands. -/
theorem end_to_end_witness :
    InRange (constTree 1) ∧ ([0, 0, 1, 0, 0, 0, 0] : List Int).length = 7 ∧
      ([0, 1, 1, 0, 0, 0, 0] : List Int).length = 7 ∧
      ∃ s7 c1 c2, run (constTree 1) (initialState true)
        (setupTrace [0, 0, 1, 0, 0, 0, 0] ++ [Step.tick] ++ List.replicate 2 Step.tick ++
          [Step.event (Event.whackComplete 2)] ++ List.replicate 3 Step.tick ++
          [Step.event (Event.stateUpdate [0, 1, 1, 0, 0, 0, 0]), Step.tick]) =
        some (s7, [c1, c2]) := by
  obtain ⟨_, _, c1, _, _, _, hack⟩ := end_to_end (constTree 1) [0, 0, 1, 0, 0, 0, 0]
    [0, 1, 1, 0, 0, 0, 0] constTree_one_inRange (by decide) (by decide)
  obtain ⟨_, _, s7, c2, _, _, _, _, hfull⟩ := hack (Event.whackComplete 2) rfl
  exact ⟨constTree_one_inRange, by decide, by decide, s7, c1, c2, hfull 2 3⟩

/-- While `autonomousMode` is false, a step other than `AutonomousModeSet`
with a nonzero flag publishes nothing and leaves the flag false. -/
theorem step_manual (dtree : GDecisionTree) (s : State) (st : Step)
    (hs : s.autonomousMode = false)
    (hok : st.isAutoOn = false ∧ st.inBounds = true) :
    ∃ s', step dtree s st = some (s', []) ∧ s'.autonomousMode = false := by
  obtain ⟨hauto, hin⟩ := hok
  cases st with
  | tick =>
    have hno : ¬ GateOpen s := fun hg => by
      rw [hg.1] at hs
      exact Bool.noConfusion hs
    exact ⟨s, by simp only [step, mainTick_of_not_open dtree s hno], hs⟩
  | event e =>
    cases e with
    | whackComplete slot => exact ⟨_, rfl, hs⟩
    | robotArrived pos => exact ⟨_, rfl, hs⟩
    | stateUpdate moles =>
      simp only [Step.inBounds, decide_eq_true_eq] at hin
      obtain ⟨s', hs', _⟩ := stateCallback_in_bounds s moles hin
      refine ⟨s', by simp only [step, applyEvent, hs'], ?_⟩
      rw [(stateCallback_frame s s' moles hs').2.2.1, hs]
    | autonomousModeSet flag =>
      refine ⟨autoModeCallback s flag, rfl, ?_⟩
      simpa [Step.isAutoOn, autoModeCallback] using hauto
    | gameStarted => exact ⟨_, rfl, hs⟩
    | timeLeft seconds =>
      refine ⟨timeLeftCallback s seconds, rfl, ?_⟩
      unfold timeLeftCallback
      simp only
      split_ifs
      · rfl
      · exact hs

/-- While `newState` is false, a step other than a `StateUpdate` publishes
nothing and leaves the flag false. -/
theorem step_stale (dtree : GDecisionTree) (s : State) (st : Step)
    (hs : s.newState = false) (hok : st.isStateUpdate = false) :
    ∃ s', step dtree s st = some (s', []) ∧ s'.newState = false := by
  cases st with
  | tick => exact ⟨s, by simp only [step, mainTick_stale dtree s hs], hs⟩
  | event e =>
    cases e with
    | whackComplete slot => exact ⟨_, rfl, hs⟩
    | robotArrived pos => exact ⟨_, rfl, hs⟩
    | stateUpdate moles => simp [Step.isStateUpdate] at hok
    | autonomousModeSet flag => exact ⟨_, rfl, hs⟩
    | gameStarted => exact ⟨_, rfl, hs⟩
    | timeLeft seconds =>
      refine ⟨timeLeftCallback s seconds, rfl, ?_⟩
      unfold timeLeftCallback
      simp only
      split_ifs
      · rfl
      · exact hs

/-- Fresh inputs after a reset: after a `TimeLeft` with `seconds ≤ 0`, whatever the state before it,
a trace of events and ticks (`StateUpdate` messages carrying at most 7 values)
that lacks a `GameStarted`, or lacks an `AutonomousModeSet` with a nonzero
flag, or lacks a `StateUpdate`, runs to its end and publishes nothing; so a
command is published only after all three have been applied after the reset. -/
theorem reset_needs_fresh_inputs (dtree : GDecisionTree) (s : State) (seconds : Int)
    (tr : List Step) (hsec : seconds ≤ 0)
    (hbound : ∀ st ∈ tr, st.inBounds = true)
    (hmiss : (∀ st ∈ tr, st.isGameStarted = false) ∨ (∀ st ∈ tr, st.isAutoOn = false) ∨
      (∀ st ∈ tr, st.isStateUpdate = false)) :
    ∃ s', run dtree (timeLeftCallback s seconds) tr = some (s', []) := by
  have hreset := reset_clears_flags s seconds hsec
  rcases hmiss with h | h | h
  · obtain ⟨s', hs', _⟩ := run_silent dtree (fun x => x.gameStarted = false)
      (fun st => st.isGameStarted = false ∧ st.inBounds = true)
      (step_inactive dtree) tr _ hreset.1 (fun st hst => ⟨h st hst, hbound st hst⟩)
    exact ⟨s', hs'⟩
  · obtain ⟨s', hs', _⟩ := run_silent dtree (fun x => x.autonomousMode = false)
      (fun st => st.isAutoOn = false ∧ st.inBounds = true)
      (step_manual dtree) tr _ hreset.2.1 (fun st hst => ⟨h st hst, hbound st hst⟩)
    exact ⟨s', hs'⟩
  · obtain ⟨s', hs', _⟩ := run_silent dtree (fun x => x.newState = false)
      (fun st => st.isStateUpdate = false)
      (step_stale dtree) tr _ hreset.2.2 h
    exact ⟨s', hs'⟩

/-- Fresh inputs after `TimeLeft(0)` in `readyState`, which holds the flags and mole
data of a game under way: `GameStarted`, `AutonomousModeSet(1)`, ticks and an
acknowledgment, without a `StateUpdate`, publish nothing. -/
theorem reset_needs_fresh_inputs_witness :
    (0 : Int) ≤ 0 ∧
      ∃ s', run (constTree 1) (timeLeftCallback readyState 0)
        [Step.tick, Step.event Event.gameStarted, Step.event (Event.autonomousModeSet 1),
         Step.tick, Step.event (Event.whackComplete 2), Step.tick] = some (s', []) :=
  ⟨by decide,
   reset_needs_fresh_inputs (constTree 1) readyState 0 _ (by decide) (by decide)
     (Or.inr (Or.inr (by decide)))⟩

/-- One step keeps both positions ordinals when an acknowledgment it delivers
is in range. -/
theorem step_posValid (dtree : GDecisionTree) (s s1 : State) (out : List Publish)
    (st : Step) (hs : PosValid s) (hok : st.ackInRange s = true)
    (h : step dtree s st = some (s1, out)) : PosValid s1 := by
  cases st with
  | tick =>
    simp only [step, Option.some.injEq] at h
    by_cases hg : GateOpen s
    · rw [mainTick_of_open dtree s hg] at h
      cases h
      exact hs
    · rw [mainTick_of_not_open dtree s hg] at h
      cases h
      exact hs
  | event e =>
    cases e with
    | whackComplete slot =>
      cases h
      simp only [Step.ackInRange, decide_eq_true_eq] at hok
      unfold PosValid at hs ⊢
      simp only [whackCallback, wrapInt32]
      refine ⟨hs.1, ?_⟩
      omega
    | robotArrived pos =>
      cases h
      simp only [Step.ackInRange, decide_eq_true_eq] at hok
      unfold PosValid at hs ⊢
      simp only [robotArriveCallback]
      refine ⟨?_, hs.2⟩
      omega
    | stateUpdate moles =>
      simp only [step, applyEvent] at h
      cases hsc : stateCallback s moles with
      | none => simp [hsc] at h
      | some s2 =>
        simp only [hsc, Option.some.injEq, Prod.mk.injEq] at h
        obtain ⟨rfl, _⟩ := h
        have hf := stateCallback_frame s s2 moles hsc
        unfold PosValid at hs ⊢
        rw [hf.2.2.2.2.2.2, hf.2.2.2.2.2.1]
        exact hs
    | autonomousModeSet flag =>
      cases h
      exact hs
    | gameStarted =>
      cases h
      exact hs
    | timeLeft seconds =>
      cases h
      unfold PosValid at hs ⊢
      unfold timeLeftCallback
      simp only
      split_ifs
      · exact ⟨Or.inr (Or.inl rfl), Or.inr (Or.inl rfl)⟩
      · exact hs

/-- Along a trace whose acknowledgments are in range, the state reached after
any part `pre` of it has both positions ordinals. -/
theorem run_posValid (dtree : GDecisionTree) (post : List Step) :
    ∀ (pre : List Step) (s s' : State) (out : List Publish), PosValid s →
      acksInRange dtree s (pre ++ post) = true → run dtree s pre = some (s', out) →
      PosValid s' := by
  intro pre
  induction pre with
  | nil =>
    intro s s' out hs _ hrun
    simp only [run, Option.some.injEq, Prod.mk.injEq] at hrun
    obtain ⟨rfl, _⟩ := hrun
    exact hs
  | cons st rest ih =>
    intro s s' out hs hadm hrun
    simp only [run] at hrun
    cases hst : step dtree s st with
    | none => simp [hst] at hrun
    | some r =>
      obtain ⟨s1, o1⟩ := r
      simp only [hst] at hrun
      cases hrest : run dtree s1 rest with
      | none => simp [hrest] at hrun
      | some r2 =>
        obtain ⟨s2, o2⟩ := r2
        simp only [hrest, Option.some.injEq, Prod.mk.injEq] at hrun
        obtain ⟨rfl, _⟩ := hrun
        simp only [List.cons_append, acksInRange, hst, Bool.and_eq_true] at hadm
        exact ih s1 s2 o2 (step_posValid dtree s s1 o1 st hs hadm.1 hst) hadm.2 hrest

/-- Positions stay ordinals while the messages fit the array: along every trace from the initial state in which each
`RobotArrived(pos)` has `pos` in `{1,2,3}` and each `WhackComplete(slot)` has
`2*robotPos ≤ slot ≤ 2*robotPos + 2` for the `robotPos` held when it is
applied, every state reached (after any part `pre` of the trace) has
`robotPos` and `armPos` in `{0,1,2}`, and so have the two position features,
at the indices 7 and 8 of the vector handed to `predict`. -/
theorem positions_stay_ordinals (dtree : GDecisionTree) (created : Bool)
    (pre post : List Step) (s' : State) (out : List Publish)
    (hadm : acksInRange dtree (initialState created) (pre ++ post) = true)
    (hrun : run dtree (initialState created) pre = some (s', out)) :
    (s'.robotPos = 0 ∨ s'.robotPos = 1 ∨ s'.robotPos = 2) ∧
      (s'.armPos = 0 ∨ s'.armPos = 1 ∨ s'.armPos = 2) ∧
      (∀ x ∈ (featureVector s').drop 7, x = 0 ∨ x = 1 ∨ x = 2) := by
  have hinit : PosValid (initialState created) := by
    cases created <;> exact ⟨Or.inr (Or.inl rfl), Or.inr (Or.inl rfl)⟩
  have hv := run_posValid dtree post pre (initialState created) s' out hinit hadm hrun
  refine ⟨hv.1, hv.2, ?_⟩
  intro x hx
  have hdrop : (featureVector s').drop 7 = [(s'.robotPos : ℚ), (s'.armPos : ℚ)] := rfl
  rw [hdrop] at hx
  simp only [List.mem_cons, List.mem_singleton, List.not_mem_nil, or_false] at hx
  rcases hx with rfl | rfl
  · rcases hv.1 with h | h | h <;> rw [h] <;> simp
  · rcases hv.2 with h | h | h <;> rw [h] <;> simp

/-- Positions on a trace: the robot arrives at position 3, a whack at slot 4 is
completed (then `robotPos = 2`, `armPos = 0`), and the trace goes on with a
`RobotArrived(1)`. -/
theorem positions_stay_ordinals_witness :
    ∃ s', run (constTree 1) (initialState true)
        [Step.event (Event.robotArrived 3), Step.tick,
         Step.event (Event.whackComplete 4)] = some (s', []) ∧
      s'.robotPos = 2 ∧ s'.armPos = 0 ∧
      ((s'.robotPos = 0 ∨ s'.robotPos = 1 ∨ s'.robotPos = 2) ∧
        (s'.armPos = 0 ∨ s'.armPos = 1 ∨ s'.armPos = 2) ∧
        (∀ x ∈ (featureVector s').drop 7, x = 0 ∨ x = 1 ∨ x = 2)) := by
  refine ⟨_, rfl, rfl, rfl, ?_⟩
  exact positions_stay_ordinals (constTree 1) true
    [Step.event (Event.robotArrived 3), Step.tick, Step.event (Event.whackComplete 4)]
    [Step.event (Event.robotArrived 1)] _ [] (by decide) rfl

/-! ## A `StateUpdate` of more than 7 values

The loop of `stateCallback` never compares its index with the size of
`moleStates`.  A message of 9 values makes it write `moleStates[7]` and
`moleStates[8]`, outside the array, where other statics of the node are
stored; from there on the node has no defined behaviour, and `run` has no
result.  The properties below are stated for every trace and so do not
survive such a message. -/

/-- C11 (the code at the failing input): from the initial state without a
tree, a `StateUpdate` of 9 values makes the handler write outside
`moleStates`; the run has no result, so that neither `treeInitialized` nor the
silence of the ticks that follow is guaranteed. -/
theorem tree_missing_oversized_update :
    (initialState false).treeInitialized = false ∧
      stateCallback (initialState false) [1, 1, 1, 1, 1, 1, 1, 1, 1] = none ∧
      run (constTree 1) (initialState false)
        [Step.event (Event.stateUpdate [1, 1, 1, 1, 1, 1, 1, 1, 1]), Step.tick] = none := by
  decide

/-- C18 (the code at the failing input): the trace that holds only a
`StateUpdate` of the 8 values `[1,2,3,4,5,6,7,8]` meets the conditions on
`RobotArrived` and `WhackComplete` (it holds neither); the handler writes the
value 8 to `moleStates[7]`, outside the array, and the run has no result, so
that the positions are not guaranteed to stay in `{0,1,2}`. -/
theorem positions_oversized_update :
    acksInRange (constTree 1) (initialState true)
        [Step.event (Event.stateUpdate [1, 2, 3, 4, 5, 6, 7, 8])] = true ∧
      stateCallbackLoop [8] 7 (fun j => (j.val : Int) + 1) = none ∧
      stateCallback (initialState true) [1, 2, 3, 4, 5, 6, 7, 8] = none ∧
      run (constTree 1) (initialState true)
        [Step.event (Event.stateUpdate [1, 2, 3, 4, 5, 6, 7, 8])] = none := by
  decide

end WhackamoleLearning
